import Mathlib

/-!
The absoid flock simulation: the per-tick steering, integration and wrap rules of `main.go`

A shallow embedding of `src/main.go`.

* `float64` is read as an ordered field `F` together with a square root
  (`HasSqrt`); the theorems about lengths are stated at `F = ℝ` with
  `Real.sqrt`. The body of `wrap` only compares and assigns, so it is defined
  for every scalar type with `0` and a decidable `<`; its theorems are stated
  for every ordered field and, for its range, on the `float64` values `F64`
  (numbers, infinities and NaN).
* Every `/` of the source by a computed value is the checked division `fdiv`
  (the constant divisor `2` of `NewBoid` is the field division): a zero divisor is
  where `float64` leaves the reals (`0/0 = NaN`, `v/0 = ±Inf`), and the model
  stops there with `Fault.divisionByZero`.
* `boids[i]` with `i` outside the slice panics in Go; the model stops with
  `Fault.indexOutOfRange`.
* `rand.Float64()` is a sequence `draw : ℕ → F` of results, one per call.
* `reposition`, `applyBehavior` and `wrap` are `for { body; time.Sleep(..) }`
  loops; the definitions of the same names are one pass of the loop body.
* `pixel.Vec` is the external `github.com/faiface/pixel` vector type; its
  methods `V`, `Add`, `Sub`, `Map`, `Len` used by `main.go` are given here with
  their library meaning (`Len` is `math.Hypot(X, Y)`); its comparison `Eq` is
  a parameter (`HasVecEq`) of which only `u.Eq u = true` is assumed.
-/

namespace Absoid

/-- Ways in which one pass of a controller method stops in the model. -/
inductive Fault where
  | indexOutOfRange
  | divisionByZero
  deriving DecidableEq, Repr

/-- Square root on the scalar type standing for `float64`. -/
class HasSqrt (F : Type) where
  sqrt : F → F

noncomputable instance instHasSqrtReal : HasSqrt ℝ := ⟨Real.sqrt⟩

/-- The type `pixel.Vec`. -/
structure Vec (F : Type) where
  X : F
  Y : F

/-- The method `Vec.Eq` of the external `pixel` library, whose source is not
part of the repository: a parameter of the model. The library compares the two
vectors component by component (exactly, or up to a tolerance); the one
property taken from it is that a vector of numbers equals itself. -/
class HasVecEq (F : Type) where
  vecEq : Vec F → Vec F → Bool
  vecEq_self : ∀ u : Vec F, vecEq u u = true

/-- The exact comparison of both components, one admissible `Vec.Eq`; it is
the one in force in the concrete examples over `ℝ`. -/
noncomputable instance instHasVecEqReal : HasVecEq ℝ :=
  ⟨fun u v => decide (u.X = v.X) && decide (u.Y = v.Y), fun u => by simp⟩

/-- The type `Boid` of `main.go`. -/
structure Boid (F : Type) where
  position : Vec F
  velocity : Vec F
  acceleration : Vec F

/-- The type `Flock` of `main.go`. -/
structure Flock (F : Type) where
  boids : List (Boid F)

/-- The type `FlockController` of `main.go`. -/
structure FlockController (F : Type) where
  flock : Flock F
  maxX : F
  maxY : F
  maxVelocity : F
  maxForce : F
  perception : F

section WrapDef

variable {F : Type}

/-- The assignment through the pointer `&controller.flock.boids[i]`. -/
def FlockController.setBoid (c : FlockController F) (i : Nat) (b : Boid F) :
    FlockController F :=
  { c with flock := ⟨c.flock.boids.set i b⟩ }

variable [Zero F] [LT F] [DecidableRel (fun a b : F => a < b)]

/-- One pass of the loop body of `FlockController.wrap`. The body compares and
assigns coordinates and does no arithmetic, so it is given for every scalar
type with `0` and a decidable `<`: an ordered field, or the `float64` values
`F64` with their infinities and NaN. -/
def wrap (c : FlockController F) (i : Nat) : Except Fault (FlockController F) :=
  match c.flock.boids[i]? with
  | none => Except.error Fault.indexOutOfRange
  | some boid =>
    let boid : Boid F :=
      if boid.position.X > c.maxX then
        { boid with position := { boid.position with X := 0 } }
      else if boid.position.X < 0 then
        { boid with position := { boid.position with X := c.maxX } }
      else boid
    let boid : Boid F :=
      if boid.position.Y > c.maxY then
        { boid with position := { boid.position with Y := 0 } }
      else if boid.position.Y < 0 then
        { boid with position := { boid.position with Y := c.maxY } }
      else boid
    Except.ok (c.setBoid i boid)

end WrapDef

/-- A `float64` value as the comparisons of `wrap` see it: a number, an
infinity, or NaN. -/
inductive F64 (R : Type) where
  | num (x : R)
  | posInf
  | negInf
  | nan

section F64Defs

variable {R : Type}

/-- The comparison `<` of `float64`: false as soon as one side is NaN. -/
def F64.lt [LT R] : F64 R → F64 R → Prop
  | F64.num a, F64.num b => a < b
  | F64.num _, F64.posInf => True
  | F64.negInf, F64.num _ => True
  | F64.negInf, F64.posInf => True
  | _, _ => False

/-- The comparison `<=` of `float64`: false as soon as one side is NaN. -/
def F64.le [LE R] : F64 R → F64 R → Prop
  | F64.num a, F64.num b => a ≤ b
  | F64.num _, F64.posInf => True
  | F64.negInf, F64.num _ => True
  | F64.negInf, F64.posInf => True
  | F64.posInf, F64.posInf => True
  | F64.negInf, F64.negInf => True
  | _, _ => False

instance F64.instLT [LT R] : LT (F64 R) := ⟨F64.lt⟩

instance F64.instLE [LE R] : LE (F64 R) := ⟨F64.le⟩

instance F64.instZero [Zero R] : Zero (F64 R) := ⟨F64.num 0⟩

/-- The comparison `<` of `float64` is decided from the one of the numbers. -/
def F64.decLt [LT R] [DecidableRel (fun a b : R => a < b)] :
    (a b : F64 R) → Decidable (F64.lt a b)
  | F64.num a, F64.num b => inferInstanceAs (Decidable (a < b))
  | F64.num _, F64.posInf => isTrue trivial
  | F64.num _, F64.negInf => isFalse (fun h => h)
  | F64.num _, F64.nan => isFalse (fun h => h)
  | F64.posInf, F64.num _ => isFalse (fun h => h)
  | F64.posInf, F64.posInf => isFalse (fun h => h)
  | F64.posInf, F64.negInf => isFalse (fun h => h)
  | F64.posInf, F64.nan => isFalse (fun h => h)
  | F64.negInf, F64.num _ => isTrue trivial
  | F64.negInf, F64.posInf => isTrue trivial
  | F64.negInf, F64.negInf => isFalse (fun h => h)
  | F64.negInf, F64.nan => isFalse (fun h => h)
  | F64.nan, F64.num _ => isFalse (fun h => h)
  | F64.nan, F64.posInf => isFalse (fun h => h)
  | F64.nan, F64.negInf => isFalse (fun h => h)
  | F64.nan, F64.nan => isFalse (fun h => h)

instance F64.instDecidableLt [LT R] [DecidableRel (fun a b : R => a < b)] :
    DecidableRel (fun a b : F64 R => a < b) :=
  fun a b => F64.decLt a b

end F64Defs

section Defs

variable {F : Type} [LinearOrderedField F]

/-- The float division `a / b`, stopping where the divisor is zero. -/
def fdiv (a b : F) : Except Fault F :=
  if b = 0 then Except.error Fault.divisionByZero else Except.ok (a / b)

/-- The constructor `pixel.V(x, y)`. -/
def V (x y : F) : Vec F := ⟨x, y⟩

/-- The method `Vec.Add`. -/
def Vec.Add (u v : Vec F) : Vec F := ⟨u.X + v.X, u.Y + v.Y⟩

/-- The method `Vec.Sub`. -/
def Vec.Sub (u v : Vec F) : Vec F := ⟨u.X - v.X, u.Y - v.Y⟩

/-- The method `Vec.Len`, that is `math.Hypot(u.X, u.Y)`. -/
def Vec.Len [HasSqrt F] (u : Vec F) : F := HasSqrt.sqrt (u.X * u.X + u.Y * u.Y)

/-- The method `Vec.Eq`, the comparison of the library (see `HasVecEq`). -/
def Vec.Eq [HasVecEq F] (u v : Vec F) : Bool := HasVecEq.vecEq u v

/-- The method `Vec.Map`, for a function that may divide. -/
def Vec.Map (u : Vec F) (f : F → Except Fault F) : Except Fault (Vec F) :=
  match f u.X with
  | Except.error e => Except.error e
  | Except.ok x =>
    match f u.Y with
    | Except.error e => Except.error e
    | Except.ok y => Except.ok ⟨x, y⟩

/-- The closure `func(v float64) float64 { return v / float64(total) }`. -/
def divBy (d : F) (v : F) : Except Fault F := fdiv v d

/-- The closure `func(v float64) float64 { return v / len * m }`. -/
def scaleBy (len m : F) (v : F) : Except Fault F :=
  match fdiv v len with
  | Except.error e => Except.error e
  | Except.ok q => Except.ok (q * m)

variable [HasSqrt F]

/-- One pass of the loop body of `FlockController.reposition`. -/
def reposition (c : FlockController F) (i : Nat) : Except Fault (FlockController F) :=
  match c.flock.boids[i]? with
  | none => Except.error Fault.indexOutOfRange
  | some boid =>
    let boid : Boid F := { boid with position := boid.position.Add boid.velocity }
    let boid : Boid F := { boid with velocity := boid.velocity.Add boid.acceleration }
    if boid.velocity.Len > c.maxVelocity then
      match boid.velocity.Map (scaleBy boid.velocity.Len c.maxVelocity) with
      | Except.error e => Except.error e
      | Except.ok v =>
        Except.ok (c.setBoid i { boid with velocity := v, acceleration := V 0 0 })
    else
      Except.ok (c.setBoid i { boid with acceleration := V 0 0 })

/-- The neighbour loop of `alignment`: the pair `(avgVec, total)` after the
`range` over `boids`. -/
def alignmentScan (perception : F) (curBoid : Boid F) (boids : List (Boid F)) :
    Vec F × Nat :=
  boids.foldl
    (fun acc boid =>
      if (curBoid.position.Sub boid.position).Len < perception then
        (acc.1.Add boid.velocity, acc.2 + 1)
      else acc)
    (V 0 0, 0)

/-- The local `steering` of `alignment` at its last statement, for the
current boid `curBoid` and the scanned slice `boids`. -/
def alignmentSteering (c : FlockController F) (curBoid : Boid F)
    (boids : List (Boid F)) : Except Fault (Vec F) :=
  let scan := alignmentScan c.perception curBoid boids
  if scan.2 > 0 then
    match scan.1.Map (divBy (scan.2 : F)) with
    | Except.error e => Except.error e
    | Except.ok avgVec =>
      match avgVec.Map (scaleBy avgVec.Len c.maxVelocity) with
      | Except.error e => Except.error e
      | Except.ok avgVec => Except.ok (avgVec.Sub curBoid.velocity)
  else Except.ok (V 0 0)

/-- The method `FlockController.alignment`. -/
def alignment (c : FlockController F) (i : Nat) : Except Fault (FlockController F) :=
  match c.flock.boids[i]? with
  | none => Except.error Fault.indexOutOfRange
  | some curBoid =>
    match alignmentSteering c curBoid c.flock.boids with
    | Except.error e => Except.error e
    | Except.ok steering =>
      Except.ok (c.setBoid i
        { curBoid with acceleration := curBoid.acceleration.Add steering })

/-- The neighbour loop of `cohesion`: the pair `(avgPos, total)`. -/
def cohesionScan (perception : F) (curBoid : Boid F) (boids : List (Boid F)) :
    Vec F × Nat :=
  boids.foldl
    (fun acc boid =>
      if (boid.position.Sub curBoid.position).Len < perception then
        (acc.1.Add boid.position, acc.2 + 1)
      else acc)
    (V 0 0, 0)

/-- The clamp shared by `cohesion` and `separation`:
`if steering.Len() > maxForce { steering = steering.Map(v / steering.Len() * maxForce) }`. -/
def clampForce (maxForce : F) (steering : Vec F) : Except Fault (Vec F) :=
  if steering.Len > maxForce then steering.Map (scaleBy steering.Len maxForce)
  else Except.ok steering

/-- The guarded rescale shared by `cohesion` and `separation`:
`if u.Len() > 0 { u = u.Map(v / u.Len() * maxVelocity) }`. -/
def rescaleIfNonzero (maxVelocity : F) (u : Vec F) : Except Fault (Vec F) :=
  if u.Len > 0 then u.Map (scaleBy u.Len maxVelocity) else Except.ok u

/-- The local `steering` of `cohesion` at its last statement. -/
def cohesionSteering (c : FlockController F) (curBoid : Boid F)
    (boids : List (Boid F)) : Except Fault (Vec F) :=
  let scan := cohesionScan c.perception curBoid boids
  if scan.2 > 0 then
    match scan.1.Map (divBy (scan.2 : F)) with
    | Except.error e => Except.error e
    | Except.ok avgPos =>
      match rescaleIfNonzero c.maxVelocity (avgPos.Sub curBoid.position) with
      | Except.error e => Except.error e
      | Except.ok vecToAvgPos =>
        clampForce c.maxForce (vecToAvgPos.Sub curBoid.velocity)
  else Except.ok (V 0 0)

/-- The method `FlockController.cohesion`. -/
def cohesion (c : FlockController F) (i : Nat) : Except Fault (FlockController F) :=
  match c.flock.boids[i]? with
  | none => Except.error Fault.indexOutOfRange
  | some curBoid =>
    match cohesionSteering c curBoid c.flock.boids with
    | Except.error e => Except.error e
    | Except.ok steering =>
      Except.ok (c.setBoid i
        { curBoid with acceleration := curBoid.acceleration.Add steering })

variable [HasVecEq F]

/-- One iteration of the neighbour loop of `separation` on the pair
`(avgVec, total)`. -/
def separationStep (perception : F) (curBoid : Boid F) (acc : Vec F × Nat)
    (boid : Boid F) : Except Fault (Vec F × Nat) :=
  let distance := (boid.position.Sub curBoid.position).Len
  if (!boid.position.Eq curBoid.position) && decide (distance < perception) then
    match (curBoid.position.Sub boid.position).Map (divBy distance) with
    | Except.error e => Except.error e
    | Except.ok diff => Except.ok (acc.1.Add diff, acc.2 + 1)
  else Except.ok acc

/-- The neighbour loop of `separation`, from the pair `acc`. -/
def separationScan (perception : F) (curBoid : Boid F) :
    Vec F × Nat → List (Boid F) → Except Fault (Vec F × Nat)
  | acc, [] => Except.ok acc
  | acc, boid :: rest =>
    match separationStep perception curBoid acc boid with
    | Except.error e => Except.error e
    | Except.ok acc1 => separationScan perception curBoid acc1 rest

/-- The local `steering` of `separation` at its last statement. -/
def separationSteering (c : FlockController F) (curBoid : Boid F)
    (boids : List (Boid F)) : Except Fault (Vec F) :=
  match separationScan c.perception curBoid (V 0 0, 0) boids with
  | Except.error e => Except.error e
  | Except.ok scan =>
    if scan.2 > 0 then
      match scan.1.Map (divBy (scan.2 : F)) with
      | Except.error e => Except.error e
      | Except.ok avgVec =>
        match rescaleIfNonzero c.maxVelocity avgVec with
        | Except.error e => Except.error e
        | Except.ok avgVec => clampForce c.maxForce (avgVec.Sub curBoid.velocity)
    else Except.ok (V 0 0)

/-- The method `FlockController.separation`. -/
def separation (c : FlockController F) (i : Nat) : Except Fault (FlockController F) :=
  match c.flock.boids[i]? with
  | none => Except.error Fault.indexOutOfRange
  | some curBoid =>
    match separationSteering c curBoid c.flock.boids with
    | Except.error e => Except.error e
    | Except.ok steering =>
      Except.ok (c.setBoid i
        { curBoid with acceleration := curBoid.acceleration.Add steering })

/-- One pass of the loop body of `FlockController.applyBehavior`. -/
def applyBehavior (c : FlockController F) (i : Nat) : Except Fault (FlockController F) :=
  match alignment c i with
  | Except.error e => Except.error e
  | Except.ok c1 =>
    match cohesion c1 i with
    | Except.error e => Except.error e
    | Except.ok c2 => separation c2 i

/-- The five per-boid operations that `begin` starts for every index. -/
inductive Op where
  | alignment (i : Nat)
  | cohesion (i : Nat)
  | separation (i : Nat)
  | reposition (i : Nat)
  | wrap (i : Nat)
  deriving DecidableEq, Repr

/-- One operation on the controller. -/
def runOp (c : FlockController F) : Op → Except Fault (FlockController F)
  | Op.alignment i => alignment c i
  | Op.cohesion i => cohesion c i
  | Op.separation i => separation c i
  | Op.reposition i => reposition c i
  | Op.wrap i => wrap c i

/-- A sequence of operations, one after another, stopping at the first fault. -/
def runOps (c : FlockController F) : List Op → Except Fault (FlockController F)
  | [] => Except.ok c
  | op :: rest =>
    match runOp c op with
    | Except.error e => Except.error e
    | Except.ok c1 => runOps c1 rest

/-- Two boids with the same position and the same velocity (the fields that
the steering rules read). -/
def SamePV (x y : Boid F) : Prop :=
  x.position = y.position ∧ x.velocity = y.velocity

/-- One pass of the loop body of `applyBehavior` in place for the indices of
`order`, one after another, stopping at the first fault. -/
def applyBehaviorAll (c : FlockController F) : List Nat → Except Fault (FlockController F)
  | [] => Except.ok c
  | i :: rest =>
    match applyBehavior c i with
    | Except.error e => Except.error e
    | Except.ok c1 => applyBehaviorAll c1 rest

/-- Spec side of the behaviour phase, for one boid: the three steering
vectors of `b` computed from the flock `snapshot`, and then added to the
acceleration of `b`. -/
def snapshotSteer (c : FlockController F) (snapshot : List (Boid F)) (b : Boid F) :
    Except Fault (Boid F) :=
  match alignmentSteering c b snapshot with
  | Except.error e => Except.error e
  | Except.ok sa =>
    match cohesionSteering c b snapshot with
    | Except.error e => Except.error e
    | Except.ok sc =>
      match separationSteering c b snapshot with
      | Except.error e => Except.error e
      | Except.ok ss =>
        Except.ok { b with acceleration := ((b.acceleration.Add sa).Add sc).Add ss }

/-- Spec side of the behaviour phase, for a list of boids against the
unmodified `snapshot`. -/
def snapshotBoids (c : FlockController F) (snapshot : List (Boid F)) :
    List (Boid F) → Except Fault (List (Boid F))
  | [] => Except.ok []
  | b :: rest =>
    match snapshotSteer c snapshot b with
    | Except.error e => Except.error e
    | Except.ok b1 =>
      match snapshotBoids c snapshot rest with
      | Except.error e => Except.error e
      | Except.ok rest1 => Except.ok (b1 :: rest1)

/-- Spec side of the behaviour phase: every boid steered from the flock as it
stood at the start of the phase. -/
def behaviorFromSnapshot (c : FlockController F) : Except Fault (FlockController F) :=
  match snapshotBoids c c.flock.boids c.flock.boids with
  | Except.error e => Except.error e
  | Except.ok boids => Except.ok { c with flock := ⟨boids⟩ }

end Defs

section Construction

variable {F : Type} [LinearOrderedField F]

/-- The function `NewBoid`; `draw k` is the result of its `k`-th call of
`rand.Float64()`. The divisor `2` is a constant, so `/ 2` is the field
division. -/
def NewBoid (draw : Nat → F) : Boid F :=
  let pos := V (draw 0 * 768) (draw 1 * 1024)
  let vel := V ((draw 2 - 1 / 2) * 10) ((draw 3 - 1 / 2) * 10)
  let acc := V ((draw 4 - 1 / 2) / 2) ((draw 5 - 1 / 2) / 2)
  ⟨pos, vel, acc⟩

/-- The loop of `NewFlock` with `n` iterations left, at loop counter `i`:
`boid := NewBoid(); boids = append(boids, *boid)`. Iteration `i` makes the
draws `6 * i, ..., 6 * i + 5` of the random source. -/
def NewFlockLoop (draw : Nat → F) : Nat → Nat → List (Boid F) → List (Boid F)
  | 0, _, boids => boids
  | n + 1, i, boids =>
    NewFlockLoop draw n (i + 1) (boids ++ [NewBoid (fun k => draw (6 * i + k))])

/-- The function `NewFlock`; the loop `for i := 0; i < size; i++` runs
`size.toNat` times (not at all for `size ≤ 0`). -/
def NewFlock (size : Int) (draw : Nat → F) : Flock F :=
  ⟨NewFlockLoop draw size.toNat 0 []⟩

/-- The controller that `run` builds before it calls `begin`:
`FlockController{*flock, width, height, 5, 1, 100}` with `width, height :=
1024.0, 768.0` and `flock := NewFlock(400)`. -/
def run (draw : Nat → F) : FlockController F :=
  ⟨NewFlock 400 draw, 1024, 768, 5, 1, 100⟩

end Construction

/-! ## Shared lemmas -/

section Lemmas

variable {F : Type} [LinearOrderedField F]

omit [LinearOrderedField F] in
theorem list_set_self {α : Type} (l : List α) (i : Nat) (a : α)
    (h : l[i]? = some a) : l.set i a = l := by
  induction l generalizing i with
  | nil => rfl
  | cons x xs ih =>
    cases i with
    | zero =>
      simp only [List.getElem?_cons_zero, Option.some.injEq] at h
      subst h
      rfl
    | succ n =>
      simp only [List.getElem?_cons_succ] at h
      simp only [List.set_cons_succ, ih n h]

omit [LinearOrderedField F] in
theorem setBoid_self (c : FlockController F) (i : Nat) (b : Boid F)
    (h : c.flock.boids[i]? = some b) : c.setBoid i b = c := by
  cases c with
  | mk flock maxX maxY maxVelocity maxForce perception =>
    cases flock with
    | mk boids =>
      simp only [FlockController.setBoid] at *
      rw [list_set_self boids i b h]

omit [LinearOrderedField F] in
theorem setBoid_getElem (c : FlockController F) (i : Nat) (b b1 : Boid F)
    (h : c.flock.boids[i]? = some b) : (c.setBoid i b1).flock.boids[i]? = some b1 := by
  obtain ⟨hi, _⟩ := List.getElem?_eq_some.mp h
  simp [FlockController.setBoid, hi]

section WrapLemmas

omit [LinearOrderedField F]

variable [Zero F] [LT F] [DecidableRel (fun a b : F => a < b)]

/-- The result of one pass of `wrap` on the boid at a valid index. -/
theorem wrap_eq (c : FlockController F) (i : Nat) (b : Boid F)
    (h : c.flock.boids[i]? = some b) :
    wrap c i = Except.ok (c.setBoid i
      { b with position :=
          ⟨if b.position.X > c.maxX then 0
            else if b.position.X < 0 then c.maxX else b.position.X,
           if b.position.Y > c.maxY then 0
            else if b.position.Y < 0 then c.maxY else b.position.Y⟩ }) := by
  unfold wrap
  rw [h]
  simp only
  congr 2
  split_ifs <;> rfl

theorem wrap_ok (c c1 : FlockController F) (i : Nat) (h : wrap c i = Except.ok c1) :
    ∃ b b1, c.flock.boids[i]? = some b ∧ c1 = c.setBoid i b1 ∧
      b1.velocity = b.velocity ∧ b1.acceleration = b.acceleration := by
  cases hb : c.flock.boids[i]? with
  | none => unfold wrap at h; rw [hb] at h; cases h
  | some b =>
    rw [wrap_eq c i b hb] at h
    simp only [Except.ok.injEq] at h
    exact ⟨b, _, rfl, h.symm, rfl, rfl⟩

end WrapLemmas

omit [LinearOrderedField F] in
theorem list_map_set {α β : Type} (f : α → β) (l : List α) (i : Nat) (a a1 : α)
    (h : l[i]? = some a) (hf : f a1 = f a) : (l.set i a1).map f = l.map f := by
  induction l generalizing i with
  | nil => rfl
  | cons x xs ih =>
    cases i with
    | zero =>
      simp only [List.getElem?_cons_zero, Option.some.injEq] at h
      subst h
      simp only [List.set_cons_zero, List.map_cons, hf]
    | succ n =>
      simp only [List.getElem?_cons_succ] at h
      simp only [List.set_cons_succ, List.map_cons, ih n h]

theorem map_scaleBy (u : Vec F) (len m : F) (h : len ≠ 0) :
    u.Map (scaleBy len m) = Except.ok ⟨u.X / len * m, u.Y / len * m⟩ := by
  simp [Vec.Map, scaleBy, fdiv, h]

theorem map_scaleBy_zero (u : Vec F) (m : F) :
    u.Map (scaleBy 0 m) = Except.error Fault.divisionByZero := by
  simp [Vec.Map, scaleBy, fdiv]

theorem map_divBy (u : Vec F) (d : F) (h : d ≠ 0) :
    u.Map (divBy d) = Except.ok ⟨u.X / d, u.Y / d⟩ := by
  simp [Vec.Map, divBy, fdiv, h]

omit [LinearOrderedField F] in
theorem vec_eq_self [HasVecEq F] (u : Vec F) : u.Eq u = true :=
  HasVecEq.vecEq_self u

theorem add_zero_vec (u : Vec F) : u.Add (V 0 0) = u := by
  cases u with
  | mk x y => simp [Vec.Add, V]

section Shapes

variable [HasSqrt F]

/-- A successful `alignment` adds its steering to the acceleration of boid `i`. -/
theorem alignment_ok (c c1 : FlockController F) (i : Nat)
    (h : alignment c i = Except.ok c1) :
    ∃ b s, c.flock.boids[i]? = some b ∧
      alignmentSteering c b c.flock.boids = Except.ok s ∧
      c1 = c.setBoid i { b with acceleration := b.acceleration.Add s } := by
  unfold alignment at h
  cases hb : c.flock.boids[i]? with
  | none => rw [hb] at h; cases h
  | some b =>
    rw [hb] at h
    simp only at h
    cases hs : alignmentSteering c b c.flock.boids with
    | error e => rw [hs] at h; cases h
    | ok s =>
      rw [hs] at h
      simp only [Except.ok.injEq] at h
      exact ⟨b, s, rfl, hs, h.symm⟩

/-- A successful `cohesion` adds its steering to the acceleration of boid `i`. -/
theorem cohesion_ok (c c1 : FlockController F) (i : Nat)
    (h : cohesion c i = Except.ok c1) :
    ∃ b s, c.flock.boids[i]? = some b ∧
      cohesionSteering c b c.flock.boids = Except.ok s ∧
      c1 = c.setBoid i { b with acceleration := b.acceleration.Add s } := by
  unfold cohesion at h
  cases hb : c.flock.boids[i]? with
  | none => rw [hb] at h; cases h
  | some b =>
    rw [hb] at h
    simp only at h
    cases hs : cohesionSteering c b c.flock.boids with
    | error e => rw [hs] at h; cases h
    | ok s =>
      rw [hs] at h
      simp only [Except.ok.injEq] at h
      exact ⟨b, s, rfl, hs, h.symm⟩

/-- A successful `separation` adds its steering to the acceleration of boid `i`. -/
theorem separation_ok [HasVecEq F] (c c1 : FlockController F) (i : Nat)
    (h : separation c i = Except.ok c1) :
    ∃ b s, c.flock.boids[i]? = some b ∧
      separationSteering c b c.flock.boids = Except.ok s ∧
      c1 = c.setBoid i { b with acceleration := b.acceleration.Add s } := by
  unfold separation at h
  cases hb : c.flock.boids[i]? with
  | none => rw [hb] at h; cases h
  | some b =>
    rw [hb] at h
    simp only at h
    cases hs : separationSteering c b c.flock.boids with
    | error e => rw [hs] at h; cases h
    | ok s =>
      rw [hs] at h
      simp only [Except.ok.injEq] at h
      exact ⟨b, s, rfl, hs, h.symm⟩

/-- The method `alignment` at a valid index, once its steering is known. -/
theorem alignment_of_steering (c : FlockController F) (i : Nat) (b : Boid F) (s : Vec F)
    (h : c.flock.boids[i]? = some b)
    (hs : alignmentSteering c b c.flock.boids = Except.ok s) :
    alignment c i
      = Except.ok (c.setBoid i { b with acceleration := b.acceleration.Add s }) := by
  unfold alignment
  rw [h]
  simp only
  rw [hs]

/-- The method `cohesion` at a valid index, once its steering is known. -/
theorem cohesion_of_steering (c : FlockController F) (i : Nat) (b : Boid F) (s : Vec F)
    (h : c.flock.boids[i]? = some b)
    (hs : cohesionSteering c b c.flock.boids = Except.ok s) :
    cohesion c i
      = Except.ok (c.setBoid i { b with acceleration := b.acceleration.Add s }) := by
  unfold cohesion
  rw [h]
  simp only
  rw [hs]

/-- The method `separation` at a valid index, once its steering is known. -/
theorem separation_of_steering [HasVecEq F] (c : FlockController F) (i : Nat) (b : Boid F) (s : Vec F)
    (h : c.flock.boids[i]? = some b)
    (hs : separationSteering c b c.flock.boids = Except.ok s) :
    separation c i
      = Except.ok (c.setBoid i { b with acceleration := b.acceleration.Add s }) := by
  unfold separation
  rw [h]
  simp only
  rw [hs]

omit [LinearOrderedField F] [HasSqrt F] in
/-- A fold whose step never changes the accumulator returns its start value. -/
theorem foldl_const {α β : Type} (f : β → α → β) (l : List α) (init : β)
    (h : ∀ acc a, a ∈ l → f acc a = acc) : l.foldl f init = init := by
  induction l generalizing init with
  | nil => rfl
  | cons x xs ih =>
    simp only [List.foldl_cons]
    rw [h init x (List.mem_cons_self x xs)]
    exact ih init (fun acc a ha => h acc a (List.mem_cons_of_mem x ha))

/-- The neighbour loop of `separation` keeps its accumulator when every step
fails the test of the loop. -/
theorem separationScan_skip [HasVecEq F] (p : F) (cur : Boid F) (acc : Vec F × Nat)
    (boids : List (Boid F))
    (h : ∀ b, b ∈ boids →
      ((!b.position.Eq cur.position) &&
        decide ((b.position.Sub cur.position).Len < p)) = false) :
    separationScan p cur acc boids = Except.ok acc := by
  induction boids with
  | nil => rfl
  | cons x xs ih =>
    have hx := h x (List.mem_cons_self x xs)
    simp only [separationScan, separationStep, hx]
    exact ih (fun b hb => h b (List.mem_cons_of_mem x hb))

omit [HasSqrt F] in
/-- Adding the zero steering to boid `i` leaves the controller as it is. -/
theorem setBoid_add_zero (c : FlockController F) (i : Nat) (b : Boid F)
    (h : c.flock.boids[i]? = some b) :
    c.setBoid i { b with acceleration := b.acceleration.Add (V 0 0) } = c := by
  rw [add_zero_vec]
  exact setBoid_self c i b h

/-- The neighbour loop of `separation` gives the same result when the boids
at the position of the current boid are taken out of the scanned slice. -/
theorem separationScan_filter [HasVecEq F] (p : F) (cur : Boid F) (boids : List (Boid F)) :
    ∀ acc : Vec F × Nat,
      separationScan p cur acc (boids.filter (fun x => !x.position.Eq cur.position))
        = separationScan p cur acc boids := by
  induction boids with
  | nil => intro acc; rfl
  | cons x xs ih =>
    intro acc
    cases hx : x.position.Eq cur.position with
    | true =>
      simp only [List.filter, hx, Bool.not_true, separationScan, separationStep,
        Bool.false_and]
      exact ih acc
    | false =>
      simp only [List.filter, hx, Bool.not_false, separationScan]
      cases separationStep p cur acc x with
      | error e => rfl
      | ok acc1 => exact ih acc1

/-- The neighbour loop of `separation` gives the same result on the boids
that a test `q` keeps, when every boid it drops compares equal to the position
of the current boid. -/
theorem separationScan_filter_dropped [HasVecEq F] (p : F) (cur : Boid F)
    (q : Boid F → Bool)
    (hq : ∀ x, q x = false → x.position.Eq cur.position = true)
    (boids : List (Boid F)) :
    ∀ acc : Vec F × Nat,
      separationScan p cur acc (boids.filter q) = separationScan p cur acc boids := by
  induction boids with
  | nil => intro acc; rfl
  | cons x xs ih =>
    intro acc
    cases hx : q x with
    | false =>
      simp only [List.filter, hx, separationScan, separationStep, hq x hx, Bool.not_true,
        Bool.false_and]
      exact ih acc
    | true =>
      simp only [List.filter, hx, separationScan]
      cases separationStep p cur acc x with
      | error e => rfl
      | ok acc1 => exact ih acc1

/-- In a flock of one boid `separation` skips the boid itself. -/
theorem single_separationSteering [HasVecEq F] (c : FlockController F) (b : Boid F) :
    separationSteering c b [b] = Except.ok (V 0 0) := by
  have hscan : separationScan c.perception b (V 0 0, 0) [b] = Except.ok (V 0 0, 0) := by
    apply separationScan_skip
    intro x hx
    rw [List.mem_singleton] at hx
    subst hx
    rw [vec_eq_self]
    rfl
  simp [separationSteering, hscan]

end Shapes

end Lemmas

/-! ## Lengths over the reals -/

section RealLemmas

theorem sqrt_real (x : ℝ) : HasSqrt.sqrt x = Real.sqrt x := rfl

theorem len_def (u : Vec ℝ) : u.Len = Real.sqrt (u.X * u.X + u.Y * u.Y) := rfl

theorem len_nonneg (u : Vec ℝ) : 0 ≤ u.Len := by
  rw [len_def]; exact Real.sqrt_nonneg _

theorem len_mul_self (u : Vec ℝ) : u.Len * u.Len = u.X * u.X + u.Y * u.Y := by
  rw [len_def]
  exact Real.mul_self_sqrt (add_nonneg (mul_self_nonneg _) (mul_self_nonneg _))

theorem len_eq_zero_iff (u : Vec ℝ) : u.Len = 0 ↔ u.X = 0 ∧ u.Y = 0 := by
  constructor
  · intro h
    have h2 := len_mul_self u
    rw [h] at h2
    have hx := mul_self_nonneg u.X
    have hy := mul_self_nonneg u.Y
    constructor
    · exact mul_self_eq_zero.mp (by linarith)
    · exact mul_self_eq_zero.mp (by linarith)
  · rintro ⟨hx, hy⟩
    rw [len_def, hx, hy]
    simp

theorem len_zero : (V 0 0 : Vec ℝ).Len = 0 :=
  (len_eq_zero_iff _).mpr ⟨rfl, rfl⟩

/-- A vector divided by its own nonzero length and multiplied by `m` has
length `|m|`. -/
theorem len_scaled (u : Vec ℝ) (m : ℝ) (h : u.Len ≠ 0) :
    (⟨u.X / u.Len * m, u.Y / u.Len * m⟩ : Vec ℝ).Len = |m| := by
  have h2 := len_mul_self u
  have h3 : u.Len * u.Len ≠ 0 := mul_ne_zero h h
  have h4 : u.X / u.Len * m * (u.X / u.Len * m) + u.Y / u.Len * m * (u.Y / u.Len * m)
      = (u.X * u.X + u.Y * u.Y) / (u.Len * u.Len) * (m * m) := by
    field_simp
    ring
  rw [len_def]
  simp only
  rw [h4, ← h2, div_self h3, one_mul]
  exact Real.sqrt_mul_self_eq_abs m

/-- The result of one pass of `reposition` on the boid at a valid index. -/
theorem reposition_eq (c : FlockController ℝ) (i : Nat) (b : Boid ℝ)
    (h : c.flock.boids[i]? = some b) (hm : 0 ≤ c.maxVelocity) :
    reposition c i = Except.ok (c.setBoid i
      ⟨b.position.Add b.velocity,
       if (b.velocity.Add b.acceleration).Len > c.maxVelocity then
         ⟨(b.velocity.Add b.acceleration).X / (b.velocity.Add b.acceleration).Len
            * c.maxVelocity,
          (b.velocity.Add b.acceleration).Y / (b.velocity.Add b.acceleration).Len
            * c.maxVelocity⟩
       else b.velocity.Add b.acceleration,
       V 0 0⟩) := by
  unfold reposition
  rw [h]
  simp only
  split_ifs with hgt
  · rw [map_scaleBy _ _ _ (ne_of_gt (lt_of_le_of_lt hm hgt))]
  · rfl

/-- The velocity written by `reposition` is no longer than `maxVelocity`. -/
theorem clamped_len_le (w : Vec ℝ) (m : ℝ) (hm : 0 ≤ m) :
    (if w.Len > m then (⟨w.X / w.Len * m, w.Y / w.Len * m⟩ : Vec ℝ) else w).Len ≤ m := by
  split_ifs with hgt
  · rw [len_scaled w m (ne_of_gt (lt_of_le_of_lt hm hgt)), abs_of_nonneg hm]
  · exact not_lt.mp hgt

/-- Every successful operation rewrites one boid, and does not take its
velocity from within the bound `maxVelocity` to beyond it. -/
theorem runOp_shape [HasVecEq ℝ] (c c1 : FlockController ℝ) (op : Op) (hm : 0 ≤ c.maxVelocity)
    (h : runOp c op = Except.ok c1) :
    ∃ j b b1, c.flock.boids[j]? = some b ∧ c1 = c.setBoid j b1 ∧
      (b.velocity.Len ≤ c.maxVelocity → b1.velocity.Len ≤ c.maxVelocity) := by
  cases op with
  | alignment j =>
    obtain ⟨b, s, hb, _, hc⟩ := alignment_ok c c1 j h
    exact ⟨j, b, _, hb, hc, fun hv => hv⟩
  | cohesion j =>
    obtain ⟨b, s, hb, _, hc⟩ := cohesion_ok c c1 j h
    exact ⟨j, b, _, hb, hc, fun hv => hv⟩
  | separation j =>
    obtain ⟨b, s, hb, _, hc⟩ := separation_ok c c1 j h
    exact ⟨j, b, _, hb, hc, fun hv => hv⟩
  | wrap j =>
    obtain ⟨b, b1, hb, hc, hv1, _⟩ := wrap_ok c c1 j h
    exact ⟨j, b, b1, hb, hc, fun hv => by rw [hv1]; exact hv⟩
  | reposition j =>
    simp only [runOp] at h
    cases hb : c.flock.boids[j]? with
    | none => unfold reposition at h; rw [hb] at h; cases h
    | some b =>
      rw [reposition_eq c j b hb hm] at h
      simp only [Except.ok.injEq] at h
      exact ⟨j, b, _, hb, h.symm, fun _ => clamped_len_le _ _ hm⟩

/-- The velocity bound on boid `i` survives every successful operation. -/
theorem runOp_keeps_bound [HasVecEq ℝ] (c c1 : FlockController ℝ) (op : Op) (i : Nat)
    (hm : 0 ≤ c.maxVelocity) (h : runOp c op = Except.ok c1)
    (hb : ∃ b, c.flock.boids[i]? = some b ∧ b.velocity.Len ≤ c.maxVelocity) :
    c1.maxVelocity = c.maxVelocity ∧
      ∃ b1, c1.flock.boids[i]? = some b1 ∧ b1.velocity.Len ≤ c1.maxVelocity := by
  obtain ⟨j, b, b1, hj, hc, hv⟩ := runOp_shape c c1 op hm h
  obtain ⟨bi, hbi, hvi⟩ := hb
  subst hc
  refine ⟨rfl, ?_⟩
  by_cases hji : j = i
  · subst hji
    rw [hj] at hbi
    simp only [Option.some.injEq] at hbi
    subst hbi
    exact ⟨b1, setBoid_getElem c j b b1 hj, hv hvi⟩
  · refine ⟨bi, ?_, hvi⟩
    simp only [FlockController.setBoid]
    rw [List.getElem?_set_ne hji]
    exact hbi

/-- The velocity bound on boid `i` survives every successful run of operations. -/
theorem runOps_keeps_bound [HasVecEq ℝ] (ops : List Op) (i : Nat) :
    ∀ c c2 : FlockController ℝ, 0 ≤ c.maxVelocity → runOps c ops = Except.ok c2 →
      (∃ b, c.flock.boids[i]? = some b ∧ b.velocity.Len ≤ c.maxVelocity) →
      c2.maxVelocity = c.maxVelocity ∧
      ∃ b2, c2.flock.boids[i]? = some b2 ∧ b2.velocity.Len ≤ c2.maxVelocity := by
  induction ops with
  | nil =>
    intro c c2 _ h hb
    simp only [runOps, Except.ok.injEq] at h
    subst h
    exact ⟨rfl, hb⟩
  | cons op rest ih =>
    intro c c2 hm h hb
    simp only [runOps] at h
    cases hop : runOp c op with
    | error e => rw [hop] at h; cases h
    | ok c1 =>
      rw [hop] at h
      simp only at h
      obtain ⟨hm1, hb1⟩ := runOp_keeps_bound c c1 op i hm hop hb
      obtain ⟨hm2, hb2⟩ := ih c1 c2 (by rw [hm1]; exact hm) h hb1
      exact ⟨hm2.trans hm1, hb2⟩

/-- For `maxVelocity ≥ 0`, `reposition` returns at a valid index, with a
velocity within the bound. -/
theorem reposition_bounded (c : FlockController ℝ) (i : Nat) (b : Boid ℝ)
    (h : c.flock.boids[i]? = some b) (hm : 0 ≤ c.maxVelocity) :
    ∃ b1, reposition c i = Except.ok (c.setBoid i b1) ∧
      b1.velocity.Len ≤ c.maxVelocity :=
  ⟨_, reposition_eq c i b h hm, clamped_len_le _ _ hm⟩

/-- The clamp to `maxForce ≥ 0` returns, with a vector no longer than `maxForce`. -/
theorem clampForce_bounded (m : ℝ) (hm : 0 ≤ m) (s : Vec ℝ) :
    ∃ s1, clampForce m s = Except.ok s1 ∧ s1.Len ≤ m := by
  unfold clampForce
  split_ifs with hgt
  · have hne : s.Len ≠ 0 := ne_of_gt (lt_of_le_of_lt hm hgt)
    rw [map_scaleBy _ _ _ hne]
    exact ⟨_, rfl, by rw [len_scaled s m hne, abs_of_nonneg hm]⟩
  · exact ⟨s, rfl, not_lt.mp hgt⟩

/-- The guarded rescale to `maxVelocity` returns. -/
theorem rescaleIfNonzero_total (mv : ℝ) (u : Vec ℝ) :
    ∃ u1, rescaleIfNonzero mv u = Except.ok u1 := by
  unfold rescaleIfNonzero
  split_ifs with hgt
  · rw [map_scaleBy _ _ _ (ne_of_gt hgt)]
    exact ⟨_, rfl⟩
  · exact ⟨u, rfl⟩

/-- Two different positions are at a nonzero distance. -/
theorem len_sub_ne_zero [HasVecEq ℝ] (u v : Vec ℝ) (h : u.Eq v = false) : (u.Sub v).Len ≠ 0 := by
  intro h0
  obtain ⟨hx, hy⟩ := (len_eq_zero_iff _).mp h0
  have huv : u = v := by
    cases u with
    | mk a b =>
      cases v with
      | mk x y =>
        simp only [Vec.Sub] at hx hy
        rw [sub_eq_zero.mp hx, sub_eq_zero.mp hy]
  rw [huv, vec_eq_self] at h
  cases h

/-- One iteration of the neighbour loop of `separation` returns. -/
theorem separationStep_total [HasVecEq ℝ] (p : ℝ) (cur : Boid ℝ) (acc : Vec ℝ × Nat) (x : Boid ℝ) :
    ∃ r, separationStep p cur acc x = Except.ok r := by
  unfold separationStep
  simp only
  split_ifs with hcond
  · simp only [Bool.and_eq_true, Bool.not_eq_true', decide_eq_true_eq] at hcond
    rw [map_divBy _ _ (len_sub_ne_zero _ _ hcond.1)]
    exact ⟨_, rfl⟩
  · exact ⟨acc, rfl⟩

/-- The neighbour loop of `separation` returns. -/
theorem separationScan_total [HasVecEq ℝ] (p : ℝ) (cur : Boid ℝ) (boids : List (Boid ℝ)) :
    ∀ acc : Vec ℝ × Nat, ∃ r, separationScan p cur acc boids = Except.ok r := by
  induction boids with
  | nil => intro acc; exact ⟨acc, rfl⟩
  | cons x xs ih =>
    intro acc
    obtain ⟨r, hr⟩ := separationStep_total p cur acc x
    simp only [separationScan, hr]
    exact ih r

/-- For `maxForce ≥ 0` the steering of `cohesion` is computed without a fault
and is no longer than `maxForce`. -/
theorem cohesionSteering_bounded (c : FlockController ℝ) (cur : Boid ℝ)
    (boids : List (Boid ℝ)) (hf : 0 ≤ c.maxForce) :
    ∃ s, cohesionSteering c cur boids = Except.ok s ∧ s.Len ≤ c.maxForce := by
  unfold cohesionSteering
  simp only
  split_ifs with ht
  · have hne : ((cohesionScan c.perception cur boids).2 : ℝ) ≠ 0 :=
      Nat.cast_ne_zero.mpr (Nat.pos_iff_ne_zero.mp ht)
    rw [map_divBy _ _ hne]
    simp only
    obtain ⟨u1, hu⟩ := rescaleIfNonzero_total c.maxVelocity
      ((⟨(cohesionScan c.perception cur boids).1.X / ((cohesionScan c.perception cur boids).2 : ℝ),
         (cohesionScan c.perception cur boids).1.Y / ((cohesionScan c.perception cur boids).2 : ℝ)⟩
          : Vec ℝ).Sub cur.position)
    rw [hu]
    exact clampForce_bounded c.maxForce hf _
  · exact ⟨V 0 0, rfl, by rw [len_zero]; exact hf⟩

/-- For `maxForce ≥ 0` the steering of `separation` is computed without a
fault and is no longer than `maxForce`. -/
theorem separationSteering_bounded [HasVecEq ℝ] (c : FlockController ℝ) (cur : Boid ℝ)
    (boids : List (Boid ℝ)) (hf : 0 ≤ c.maxForce) :
    ∃ s, separationSteering c cur boids = Except.ok s ∧ s.Len ≤ c.maxForce := by
  unfold separationSteering
  obtain ⟨scan, hscan⟩ := separationScan_total c.perception cur boids (V 0 0, 0)
  rw [hscan]
  simp only
  split_ifs with ht
  · have hne : ((scan.2 : ℕ) : ℝ) ≠ 0 := Nat.cast_ne_zero.mpr (Nat.pos_iff_ne_zero.mp ht)
    rw [map_divBy _ _ hne]
    simp only
    obtain ⟨u1, hu⟩ := rescaleIfNonzero_total c.maxVelocity
      (⟨scan.1.X / (scan.2 : ℝ), scan.1.Y / (scan.2 : ℝ)⟩ : Vec ℝ)
    rw [hu]
    exact clampForce_bounded c.maxForce hf _
  · exact ⟨V 0 0, rfl, by rw [len_zero]; exact hf⟩

/-- Where at least one boid is within the perception radius and the
velocities of those boids sum to zero, `alignment` divides the zero average by
its zero length. -/
theorem alignmentSteering_zero_sum (c : FlockController ℝ) (cur : Boid ℝ)
    (boids : List (Boid ℝ)) (ht : (alignmentScan c.perception cur boids).2 > 0)
    (hz : (alignmentScan c.perception cur boids).1 = V 0 0) :
    alignmentSteering c cur boids = Except.error Fault.divisionByZero := by
  unfold alignmentSteering
  simp only
  have hne : ((alignmentScan c.perception cur boids).2 : ℝ) ≠ 0 :=
    Nat.cast_ne_zero.mpr (Nat.pos_iff_ne_zero.mp ht)
  rw [if_pos ht, map_divBy _ _ hne, hz]
  simp only
  have hlen : (⟨(V 0 0 : Vec ℝ).X / ((alignmentScan c.perception cur boids).2 : ℝ),
      (V 0 0 : Vec ℝ).Y / ((alignmentScan c.perception cur boids).2 : ℝ)⟩ : Vec ℝ).Len = 0 := by
    rw [len_eq_zero_iff]
    simp [V]
  rw [hlen, map_scaleBy_zero]

/-- A position is at distance `0` from itself. -/
theorem len_sub_self (u : Vec ℝ) : (u.Sub u).Len = 0 := by
  rw [len_eq_zero_iff]
  simp [Vec.Sub]

/-- The vector `0 - v` is as long as `v`. -/
theorem len_zero_sub (v : Vec ℝ) : ((V 0 0).Sub v).Len = v.Len := by
  rw [len_def, len_def]
  simp [Vec.Sub, V]

/-- In a flock of one boid with a nonzero velocity `v` and a positive
perception radius, `alignment` counts the boid itself and steers by
`v / |v| * maxVelocity - v`. -/
theorem single_alignmentSteering (c : FlockController ℝ) (b : Boid ℝ)
    (hp : 0 < c.perception) (hv : b.velocity.Len ≠ 0) :
    alignmentSteering c b [b]
      = Except.ok ((⟨b.velocity.X / b.velocity.Len * c.maxVelocity,
          b.velocity.Y / b.velocity.Len * c.maxVelocity⟩ : Vec ℝ).Sub b.velocity) := by
  have hscan : alignmentScan c.perception b [b] = (b.velocity, 1) := by
    simp [alignmentScan, len_sub_self, hp, Vec.Add, V]
  unfold alignmentSteering
  simp only [hscan]
  rw [if_pos (by norm_num), map_divBy _ _ (by norm_num)]
  simp only [Nat.cast_one, div_one]
  rw [map_scaleBy _ _ _ hv]

/-- In a flock of one boid with a positive perception radius, `cohesion`
counts the boid itself and steers by `0 - v`, clamped to `maxForce`. -/
theorem single_cohesionSteering (c : FlockController ℝ) (b : Boid ℝ)
    (hp : 0 < c.perception) :
    cohesionSteering c b [b] = clampForce c.maxForce ((V 0 0).Sub b.velocity) := by
  have hscan : cohesionScan c.perception b [b] = (b.position, 1) := by
    simp [cohesionScan, len_sub_self, hp, Vec.Add, V]
  unfold cohesionSteering
  simp only [hscan]
  rw [if_pos (by norm_num), map_divBy _ _ (by norm_num)]
  simp only [Nat.cast_one, div_one]
  have hres : rescaleIfNonzero c.maxVelocity
      ((⟨b.position.X, b.position.Y⟩ : Vec ℝ).Sub b.position) = Except.ok (V 0 0) := by
    unfold rescaleIfNonzero
    rw [if_neg (by rw [len_sub_self]; exact lt_irrefl 0)]
    simp [Vec.Sub, V]
  rw [hres]

/-- None of `alignment`, `cohesion`, `separation`, `wrap` writes a velocity. -/
theorem velocities_kept [HasVecEq ℝ] (c c1 : FlockController ℝ) (j : Nat)
    (h : alignment c j = Except.ok c1 ∨ cohesion c j = Except.ok c1 ∨
      separation c j = Except.ok c1 ∨ wrap c j = Except.ok c1) :
    c1.flock.boids.map Boid.velocity = c.flock.boids.map Boid.velocity := by
  rcases h with h | h | h | h
  · obtain ⟨b, s, hb, _, hc⟩ := alignment_ok c c1 j h
    subst hc
    exact list_map_set Boid.velocity _ j b _ hb rfl
  · obtain ⟨b, s, hb, _, hc⟩ := cohesion_ok c c1 j h
    subst hc
    exact list_map_set Boid.velocity _ j b _ hb rfl
  · obtain ⟨b, s, hb, _, hc⟩ := separation_ok c c1 j h
    subst hc
    exact list_map_set Boid.velocity _ j b _ hb rfl
  · obtain ⟨b, b1, hb, hc, hv, _⟩ := wrap_ok c c1 j h
    subst hc
    exact list_map_set Boid.velocity _ j b _ hb hv

end RealLemmas

/-! ## Boundary wrap -/

section WrapClaims

variable {F : Type} [LinearOrderedField F]

/-- C1 (as amended): for every boid position and all bounds, one pass of the
body of `wrap` sets `x` to `0` if `x > maxX`, otherwise to `maxX` if `x < 0`,
otherwise leaves it; independently the same for `y` with `maxY`; velocity and
acceleration are kept. A boid at `x = -1` gets `x = maxX` when `maxX ≥ -1`, and
a boid past a bound by any amount lands on the edge value `0` or `maxX`. -/
theorem wrap_axes (c : FlockController F) (i : Nat) (b : Boid F)
    (h : c.flock.boids[i]? = some b) :
    ∃ b1 : Boid F, wrap c i = Except.ok (c.setBoid i b1) ∧
      (c.setBoid i b1).flock.boids[i]? = some b1 ∧
      b1.position.X = (if b.position.X > c.maxX then 0
        else if b.position.X < 0 then c.maxX else b.position.X) ∧
      b1.position.Y = (if b.position.Y > c.maxY then 0
        else if b.position.Y < 0 then c.maxY else b.position.Y) ∧
      b1.velocity = b.velocity ∧ b1.acceleration = b.acceleration ∧
      (b.position.X = -1 → -1 ≤ c.maxX → b1.position.X = c.maxX) ∧
      (∀ d : F, 0 < d → b.position.X = c.maxX + d → b1.position.X = 0) ∧
      (∀ d : F, 0 < d → b.position.X = -d → b.position.X ≤ c.maxX →
        b1.position.X = c.maxX) := by
  refine ⟨_, wrap_eq c i b h, setBoid_getElem c i b _ h, rfl, rfl, rfl, rfl, ?_, ?_, ?_⟩
  · intro hx hm
    have h1 : ¬ b.position.X > c.maxX := by rw [hx]; exact not_lt.mpr hm
    have h2 : b.position.X < 0 := by rw [hx]; norm_num
    simp only [h1, h2, if_true, if_false]
  · intro d hd hx
    have h1 : b.position.X > c.maxX := by rw [hx]; linarith
    simp only [h1, if_true]
  · intro d hd hx hle
    have h1 : ¬ b.position.X > c.maxX := not_lt.mpr hle
    have h2 : b.position.X < 0 := by rw [hx]; linarith
    simp only [h1, h2, if_true, if_false]

/-- Witness for `wrap_axes`: a boid at `(-1, 800)` in the `1024 x 768` world. -/
theorem wrap_axes_witness :
    ∃ b1 : Boid ℚ,
      wrap (⟨⟨[⟨V (-1) 800, V 1 0, V 0 0⟩]⟩, 1024, 768, 5, 1, 100⟩ : FlockController ℚ) 0
        = Except.ok ((⟨⟨[⟨V (-1) 800, V 1 0, V 0 0⟩]⟩, 1024, 768, 5, 1, 100⟩ :
            FlockController ℚ).setBoid 0 b1) ∧
      b1.position.X = 1024 ∧ b1.position.Y = 0 := by
  obtain ⟨b1, h1, _, hx, hy, _⟩ :=
    wrap_axes (⟨⟨[⟨V (-1) 800, V 1 0, V 0 0⟩]⟩, 1024, 768, 5, 1, 100⟩ : FlockController ℚ)
      0 ⟨V (-1) 800, V 1 0, V 0 0⟩ rfl
  refine ⟨b1, h1, ?_, ?_⟩
  · rw [hx]; norm_num [V]
  · rw [hy]; norm_num [V]

/-- C1 (counterexample): with `maxX = -2` a boid at `(-1, 3)` is past the upper
bound, so `wrap` sets `x` to `0`, not to `maxX`. -/
theorem wrap_minus_one_counterexample :
    wrap (⟨⟨[⟨V (-1) 3, V 0 0, V 0 0⟩]⟩, -2, 768, 5, 1, 100⟩ : FlockController ℚ) 0
      = Except.ok ⟨⟨[⟨V 0 3, V 0 0, V 0 0⟩]⟩, -2, 768, 5, 1, 100⟩ ∧ (0 : ℚ) ≠ -2 := by
  refine ⟨?_, by norm_num⟩
  rw [wrap_eq (⟨⟨[⟨V (-1) 3, V 0 0, V 0 0⟩]⟩, -2, 768, 5, 1, 100⟩ : FlockController ℚ) 0
    ⟨V (-1) 3, V 0 0, V 0 0⟩ rfl]
  norm_num [FlockController.setBoid, V]

/-- C2 (as amended): for all bounds, a boid placed exactly at `(maxX, maxY)` is
left where it is by one pass of the body of `wrap`; the whole controller is
unchanged. -/
theorem wrap_at_corner (c : FlockController F) (i : Nat) (b : Boid F)
    (h : c.flock.boids[i]? = some b) (hp : b.position = V c.maxX c.maxY) :
    wrap c i = Except.ok c := by
  rw [wrap_eq c i b h]
  have hx : b.position.X = c.maxX := by rw [hp]; rfl
  have hy : b.position.Y = c.maxY := by rw [hp]; rfl
  have hb : ({ b with position :=
      ⟨if b.position.X > c.maxX then 0
        else if b.position.X < 0 then c.maxX else b.position.X,
       if b.position.Y > c.maxY then 0
        else if b.position.Y < 0 then c.maxY else b.position.Y⟩ } : Boid F) = b := by
    cases b with
    | mk p v a =>
      cases p with
      | mk x y =>
        simp only at hx hy
        subst hx hy
        simp
  rw [hb, setBoid_self c i b h]

/-- Witness for `wrap_at_corner`: the corner `(1024, 768)` of the default world. -/
theorem wrap_at_corner_witness :
    wrap (⟨⟨[⟨V 1024 768, V 1 0, V 0 0⟩]⟩, 1024, 768, 5, 1, 100⟩ : FlockController ℚ) 0
      = Except.ok ⟨⟨[⟨V 1024 768, V 1 0, V 0 0⟩]⟩, 1024, 768, 5, 1, 100⟩ :=
  wrap_at_corner _ 0 ⟨V 1024 768, V 1 0, V 0 0⟩ rfl rfl

/-- C2 (counterexample): in the `1024 x 768` world a boid at `(1024, 768)` is
still at `(1024, 768)` after `wrap`, not at `(0, 0)`. -/
theorem wrap_at_corner_counterexample :
    wrap (⟨⟨[⟨V 1024 768, V 0 0, V 0 0⟩]⟩, 1024, 768, 5, 1, 100⟩ : FlockController ℚ) 0
      = Except.ok ⟨⟨[⟨V 1024 768, V 0 0, V 0 0⟩]⟩, 1024, 768, 5, 1, 100⟩ ∧
    (V 1024 768 : Vec ℚ) ≠ V 0 0 := by
  refine ⟨?_, ?_⟩
  · rw [wrap_eq (⟨⟨[⟨V 1024 768, V 0 0, V 0 0⟩]⟩, 1024, 768, 5, 1, 100⟩ : FlockController ℚ)
      0 ⟨V 1024 768, V 0 0, V 0 0⟩ rfl]
    norm_num [FlockController.setBoid, V]
  · intro h
    have h1 : (1024 : ℚ) = 0 := congrArg Vec.X h
    norm_num at h1

end WrapClaims

/-! ## Integration -/

section RepositionClaims

/-- C10: over the reals, for a boid with position `p`, velocity `v`,
acceleration `a` at a valid index and `maxVelocity ≥ 0`, one pass of the body
of `reposition` returns with position `p + v`, acceleration `(0, 0)`, and
velocity `v + a` when `|v + a| ≤ maxVelocity`, otherwise
`(v + a) * maxVelocity / |v + a|`, a non-negative multiple of `v + a` of length
exactly `maxVelocity`. -/
theorem reposition_integrates (c : FlockController ℝ) (i : Nat) (b : Boid ℝ)
    (h : c.flock.boids[i]? = some b) (hm : 0 ≤ c.maxVelocity) :
    ∃ b1, reposition c i = Except.ok (c.setBoid i b1) ∧
      (c.setBoid i b1).flock.boids[i]? = some b1 ∧
      b1.position = b.position.Add b.velocity ∧
      b1.acceleration = V 0 0 ∧
      ((b.velocity.Add b.acceleration).Len ≤ c.maxVelocity →
        b1.velocity = b.velocity.Add b.acceleration) ∧
      (c.maxVelocity < (b.velocity.Add b.acceleration).Len →
        b1.velocity =
          ⟨(b.velocity.Add b.acceleration).X * c.maxVelocity
              / (b.velocity.Add b.acceleration).Len,
           (b.velocity.Add b.acceleration).Y * c.maxVelocity
              / (b.velocity.Add b.acceleration).Len⟩ ∧
        b1.velocity =
          ⟨c.maxVelocity / (b.velocity.Add b.acceleration).Len
              * (b.velocity.Add b.acceleration).X,
           c.maxVelocity / (b.velocity.Add b.acceleration).Len
              * (b.velocity.Add b.acceleration).Y⟩ ∧
        0 ≤ c.maxVelocity / (b.velocity.Add b.acceleration).Len ∧
        b1.velocity.Len = c.maxVelocity) := by
  refine ⟨_, reposition_eq c i b h hm, setBoid_getElem c i b _ h, rfl, rfl, ?_, ?_⟩
  · intro hle
    simp only [gt_iff_lt, not_lt.mpr hle, if_false]
  · intro hgt
    have hne : (b.velocity.Add b.acceleration).Len ≠ 0 :=
      ne_of_gt (lt_of_le_of_lt hm hgt)
    simp only [gt_iff_lt, hgt, if_true]
    refine ⟨?_, ?_, div_nonneg hm (len_nonneg _), ?_⟩
    · congr 1 <;> ring
    · congr 1 <;> ring
    · rw [len_scaled _ _ hne, abs_of_nonneg hm]

/-- The vector `(6, 8)` has length `10`. -/
theorem len_six_eight : ((V 6 8 : Vec ℝ).Add (V 0 0)).Len = 10 := by
  rw [len_def]
  simp only [Vec.Add, V]
  rw [show ((6 : ℝ) + 0) * (6 + 0) + (8 + 0) * (8 + 0) = 10 * 10 by norm_num]
  exact Real.sqrt_mul_self (by norm_num)

/-- Witness for `reposition_integrates`: position `(1, 2)`, velocity `(6, 8)`,
`maxVelocity = 5`; the new velocity is `(3, 4)`. -/
theorem reposition_integrates_witness :
    ∃ b1 : Boid ℝ,
      reposition (⟨⟨[⟨V 1 2, V 6 8, V 0 0⟩]⟩, 1024, 768, 5, 1, 100⟩ : FlockController ℝ) 0
        = Except.ok ((⟨⟨[⟨V 1 2, V 6 8, V 0 0⟩]⟩, 1024, 768, 5, 1, 100⟩ :
            FlockController ℝ).setBoid 0 b1) ∧
      b1.position = V 7 10 ∧ b1.acceleration = V 0 0 ∧ b1.velocity = V 3 4 ∧
      b1.velocity.Len = 5 := by
  obtain ⟨b1, h1, _, h3, h4, _, h6⟩ :=
    reposition_integrates
      (⟨⟨[⟨V 1 2, V 6 8, V 0 0⟩]⟩, 1024, 768, 5, 1, 100⟩ : FlockController ℝ) 0
      ⟨V 1 2, V 6 8, V 0 0⟩ rfl (by norm_num)
  have hgt : (5 : ℝ) < ((V 6 8 : Vec ℝ).Add (V 0 0)).Len := by
    rw [len_six_eight]; norm_num
  obtain ⟨h7, _, _, h8⟩ := h6 hgt
  refine ⟨b1, h1, ?_, h4, ?_, h8⟩
  · rw [h3]; norm_num [Vec.Add, V]
  · rw [h7]
    simp only [len_six_eight]
    norm_num [Vec.Add, V]

end RepositionClaims

/-! ## Steering rules -/

section SteeringClaims

/-- C5: over the reals, for every flock and valid index `i`, when the
perception radius is `0` each of `alignment`, `cohesion` and `separation`
computes the zero steering vector and returns the controller unchanged, so
the acceleration of boid `i` after the three rules (`applyBehavior`) is its
acceleration before them. -/
theorem zero_perception_no_steering [HasVecEq ℝ] (c : FlockController ℝ) (i : Nat) (b : Boid ℝ)
    (h : c.flock.boids[i]? = some b) (hp : c.perception = 0) :
    alignmentSteering c b c.flock.boids = Except.ok (V 0 0) ∧
    cohesionSteering c b c.flock.boids = Except.ok (V 0 0) ∧
    separationSteering c b c.flock.boids = Except.ok (V 0 0) ∧
    alignment c i = Except.ok c ∧ cohesion c i = Except.ok c ∧
    separation c i = Except.ok c ∧ applyBehavior c i = Except.ok c := by
  have ha : alignmentSteering c b c.flock.boids = Except.ok (V 0 0) := by
    have hscan : alignmentScan c.perception b c.flock.boids = (V 0 0, 0) := by
      unfold alignmentScan
      apply foldl_const
      intro acc a _
      rw [hp, if_neg (not_lt.mpr (len_nonneg _))]
    simp [alignmentSteering, hscan]
  have hc : cohesionSteering c b c.flock.boids = Except.ok (V 0 0) := by
    have hscan : cohesionScan c.perception b c.flock.boids = (V 0 0, 0) := by
      unfold cohesionScan
      apply foldl_const
      intro acc a _
      rw [hp, if_neg (not_lt.mpr (len_nonneg _))]
    simp [cohesionSteering, hscan]
  have hs : separationSteering c b c.flock.boids = Except.ok (V 0 0) := by
    have hscan : separationScan c.perception b (V 0 0, 0) c.flock.boids
        = Except.ok (V 0 0, 0) := by
      apply separationScan_skip
      intro a _
      rw [hp, decide_eq_false (not_lt.mpr (len_nonneg _)), Bool.and_false]
    simp [separationSteering, hscan]
  have h1 : alignment c i = Except.ok c := by
    rw [alignment_of_steering c i b _ h ha, setBoid_add_zero c i b h]
  have h2 : cohesion c i = Except.ok c := by
    rw [cohesion_of_steering c i b _ h hc, setBoid_add_zero c i b h]
  have h3 : separation c i = Except.ok c := by
    rw [separation_of_steering c i b _ h hs, setBoid_add_zero c i b h]
  refine ⟨ha, hc, hs, h1, h2, h3, ?_⟩
  simp only [applyBehavior, h1, h2, h3]

/-- Witness for `zero_perception_no_steering`: two boids at the same place,
perception radius `0`. -/
theorem zero_perception_no_steering_witness :
    applyBehavior (⟨⟨[⟨V 0 0, V 1 0, V 2 3⟩, ⟨V 0 0, V 0 1, V 0 0⟩]⟩, 1024, 768, 5, 1, 0⟩ :
        FlockController ℝ) 0
      = Except.ok ⟨⟨[⟨V 0 0, V 1 0, V 2 3⟩, ⟨V 0 0, V 0 1, V 0 0⟩]⟩, 1024, 768, 5, 1, 0⟩ :=
  (zero_perception_no_steering
    (⟨⟨[⟨V 0 0, V 1 0, V 2 3⟩, ⟨V 0 0, V 0 1, V 0 0⟩]⟩, 1024, 768, 5, 1, 0⟩ :
      FlockController ℝ) 0 ⟨V 0 0, V 1 0, V 2 3⟩ rfl rfl).2.2.2.2.2.2

/-- C4: over the reals, for every flock, valid index `i` and `maxForce ≥ 0`,
`cohesion(i)` and `separation(i)` return, and the steering vector each adds
to the acceleration of boid `i` has length at most `maxForce`. -/
theorem steering_within_maxForce [HasVecEq ℝ] (c : FlockController ℝ) (i : Nat) (b : Boid ℝ)
    (h : c.flock.boids[i]? = some b) (hf : 0 ≤ c.maxForce) :
    (∃ s, cohesionSteering c b c.flock.boids = Except.ok s ∧ s.Len ≤ c.maxForce ∧
      cohesion c i
        = Except.ok (c.setBoid i { b with acceleration := b.acceleration.Add s })) ∧
    (∃ s, separationSteering c b c.flock.boids = Except.ok s ∧ s.Len ≤ c.maxForce ∧
      separation c i
        = Except.ok (c.setBoid i { b with acceleration := b.acceleration.Add s })) := by
  constructor
  · obtain ⟨s, hs, hl⟩ := cohesionSteering_bounded c b c.flock.boids hf
    exact ⟨s, hs, hl, cohesion_of_steering c i b s h hs⟩
  · obtain ⟨s, hs, hl⟩ := separationSteering_bounded c b c.flock.boids hf
    exact ⟨s, hs, hl, separation_of_steering c i b s h hs⟩

/-- Witness for `steering_within_maxForce`: the two boids at `(0, 0)` and
`(10, 0)` with `maxForce = 1`. -/
theorem steering_within_maxForce_witness :
    (∃ s, cohesionSteering
        (⟨⟨[⟨V 0 0, V 1 0, V 0 0⟩, ⟨V 10 0, V (-1) 0, V 0 0⟩]⟩, 1024, 768, 5, 1, 50⟩ :
          FlockController ℝ)
        ⟨V 0 0, V 1 0, V 0 0⟩ [⟨V 0 0, V 1 0, V 0 0⟩, ⟨V 10 0, V (-1) 0, V 0 0⟩]
          = Except.ok s ∧ s.Len ≤ 1) ∧
    (∃ s, separationSteering
        (⟨⟨[⟨V 0 0, V 1 0, V 0 0⟩, ⟨V 10 0, V (-1) 0, V 0 0⟩]⟩, 1024, 768, 5, 1, 50⟩ :
          FlockController ℝ)
        ⟨V 0 0, V 1 0, V 0 0⟩ [⟨V 0 0, V 1 0, V 0 0⟩, ⟨V 10 0, V (-1) 0, V 0 0⟩]
          = Except.ok s ∧ s.Len ≤ 1) := by
  obtain ⟨⟨s1, h1, h2, _⟩, ⟨s2, h3, h4, _⟩⟩ :=
    steering_within_maxForce
      (⟨⟨[⟨V 0 0, V 1 0, V 0 0⟩, ⟨V 10 0, V (-1) 0, V 0 0⟩]⟩, 1024, 768, 5, 1, 50⟩ :
        FlockController ℝ) 0 ⟨V 0 0, V 1 0, V 0 0⟩ rfl (by norm_num)
  exact ⟨⟨s1, h1, h2⟩, ⟨s2, h3, h4⟩⟩

end SteeringClaims

section SeparationClaims

variable {F : Type} [LinearOrderedField F] [HasSqrt F]

/-- C8: for every flock and valid index `i`, the boids whose position equals
the position of boid `i` (boid `i` itself and any other boid at that exact
position) do not count in `separation(i)`: scanning the flock without them
gives the same steering; and if every boid within the perception radius of
boid `i` is at the position of boid `i`, the steering is the zero vector and
`separation(i)` returns the controller unchanged. The first conjunct takes out
the boids that the library comparison `Eq` identifies with boid `i`, the last
one those at exactly its position. -/
theorem separation_excludes_equal_positions [HasVecEq F] (c : FlockController F) (i : Nat) (b : Boid F)
    (h : c.flock.boids[i]? = some b) :
    separationSteering c b (c.flock.boids.filter (fun x => !x.position.Eq b.position))
      = separationSteering c b c.flock.boids ∧
    b ∉ c.flock.boids.filter (fun x => !x.position.Eq b.position) ∧
    ((∀ x, x ∈ c.flock.boids → (x.position.Sub b.position).Len < c.perception →
        x.position = b.position) →
      separationSteering c b c.flock.boids = Except.ok (V 0 0) ∧
      separation c i = Except.ok c) ∧
    separationSteering c b (c.flock.boids.filter (fun x =>
        !(decide (x.position.X = b.position.X) && decide (x.position.Y = b.position.Y))))
      = separationSteering c b c.flock.boids := by
  refine ⟨?_, ?_, ?_, ?_⟩
  rotate_left 3
  · unfold separationSteering
    rw [separationScan_filter_dropped c.perception b _ _ c.flock.boids]
    intro x hx
    simp only [Bool.not_eq_false', Bool.and_eq_true, decide_eq_true_eq] at hx
    have hpos : x.position = b.position := by
      cases hxp : x.position with
      | mk x1 y1 =>
        cases hbp : b.position with
        | mk x2 y2 =>
          rw [hxp, hbp] at hx
          simp only at hx
          rw [hx.1, hx.2]
    rw [hpos]
    exact vec_eq_self _
  · unfold separationSteering
    rw [separationScan_filter]
  · intro hmem
    have h2 := (List.mem_filter.mp hmem).2
    rw [vec_eq_self] at h2
    cases h2
  · intro hall
    have hscan : separationScan c.perception b (V 0 0, 0) c.flock.boids
        = Except.ok (V 0 0, 0) := by
      apply separationScan_skip
      intro x hx
      by_cases hd : (x.position.Sub b.position).Len < c.perception
      · rw [hall x hx hd, vec_eq_self]
        rfl
      · rw [decide_eq_false hd, Bool.and_false]
    have hs : separationSteering c b c.flock.boids = Except.ok (V 0 0) := by
      simp [separationSteering, hscan]
    exact ⟨hs, by rw [separation_of_steering c i b _ h hs, setBoid_add_zero c i b h]⟩

/-- Witness for `separation_excludes_equal_positions`: two boids at the same
position. -/
theorem separation_excludes_equal_positions_witness :
    separation (⟨⟨[⟨V 3 4, V 1 0, V 0 0⟩, ⟨V 3 4, V (-1) 0, V 0 0⟩]⟩, 1024, 768, 5, 1, 50⟩ :
        FlockController ℝ) 0
      = Except.ok ⟨⟨[⟨V 3 4, V 1 0, V 0 0⟩, ⟨V 3 4, V (-1) 0, V 0 0⟩]⟩, 1024, 768, 5, 1, 50⟩ :=
  ((separation_excludes_equal_positions
    (⟨⟨[⟨V 3 4, V 1 0, V 0 0⟩, ⟨V 3 4, V (-1) 0, V 0 0⟩]⟩, 1024, 768, 5, 1, 50⟩ :
      FlockController ℝ) 0 ⟨V 3 4, V 1 0, V 0 0⟩ rfl).2.2.1
    (by
      intro x hx _
      simp only [List.mem_cons, List.mem_singleton, List.not_mem_nil, or_false] at hx
      rcases hx with rfl | rfl <;> rfl)).2

end SeparationClaims

section SingleBoidClaims

/-- The vector `(1, 0)` has length `1`. -/
theorem len_one_zero : (V 1 0 : Vec ℝ).Len = 1 := by
  rw [len_def]
  simp [V]

/-- C6 (as amended): over the reals, in a flock of one boid with perception
radius `> 0`, `separation(0)` yields the zero steering vector and returns the
controller unchanged, while `alignment(0)` and `cohesion(0)` count the boid
itself as a neighbour: for a velocity `v ≠ 0`, `alignment(0)` adds
`v / |v| * maxVelocity - v` and `cohesion(0)` adds `-v`, rescaled to length
`maxForce` when `|v| > maxForce`. -/
theorem single_boid_rules [HasVecEq ℝ] (c : FlockController ℝ) (b : Boid ℝ)
    (hflock : c.flock.boids = [b]) (hp : 0 < c.perception) :
    separationSteering c b c.flock.boids = Except.ok (V 0 0) ∧
    separation c 0 = Except.ok c ∧
    (b.velocity.Len ≠ 0 →
      alignmentSteering c b c.flock.boids
        = Except.ok ⟨b.velocity.X / b.velocity.Len * c.maxVelocity - b.velocity.X,
            b.velocity.Y / b.velocity.Len * c.maxVelocity - b.velocity.Y⟩ ∧
      cohesionSteering c b c.flock.boids
        = Except.ok (if b.velocity.Len > c.maxForce then
            ⟨-b.velocity.X / b.velocity.Len * c.maxForce,
             -b.velocity.Y / b.velocity.Len * c.maxForce⟩
          else ⟨-b.velocity.X, -b.velocity.Y⟩) ∧
      alignment c 0 = Except.ok (c.setBoid 0 { b with acceleration := (b.acceleration.Add
          ⟨b.velocity.X / b.velocity.Len * c.maxVelocity - b.velocity.X,
            b.velocity.Y / b.velocity.Len * c.maxVelocity - b.velocity.Y⟩) }) ∧
      cohesion c 0 = Except.ok (c.setBoid 0 { b with acceleration := (b.acceleration.Add
          (if b.velocity.Len > c.maxForce then
            ⟨-b.velocity.X / b.velocity.Len * c.maxForce,
             -b.velocity.Y / b.velocity.Len * c.maxForce⟩
          else ⟨-b.velocity.X, -b.velocity.Y⟩)) })) := by
  have hget : c.flock.boids[0]? = some b := by rw [hflock]; rfl
  have hs : separationSteering c b c.flock.boids = Except.ok (V 0 0) := by
    rw [hflock]; exact single_separationSteering c b
  refine ⟨hs, ?_, ?_⟩
  · rw [separation_of_steering c 0 b _ hget hs, setBoid_add_zero c 0 b hget]
  · intro hv
    have ha : alignmentSteering c b c.flock.boids
        = Except.ok ⟨b.velocity.X / b.velocity.Len * c.maxVelocity - b.velocity.X,
            b.velocity.Y / b.velocity.Len * c.maxVelocity - b.velocity.Y⟩ := by
      rw [hflock, single_alignmentSteering c b hp hv]
      rfl
    have hc : cohesionSteering c b c.flock.boids
        = Except.ok (if b.velocity.Len > c.maxForce then
            ⟨-b.velocity.X / b.velocity.Len * c.maxForce,
             -b.velocity.Y / b.velocity.Len * c.maxForce⟩
          else ⟨-b.velocity.X, -b.velocity.Y⟩) := by
      rw [hflock, single_cohesionSteering c b hp]
      unfold clampForce
      rw [len_zero_sub]
      split_ifs with hgt
      · rw [map_scaleBy _ _ _ hv]
        simp [Vec.Sub, V]
      · simp [Vec.Sub, V]
    exact ⟨ha, hc, alignment_of_steering c 0 b _ hget ha,
      cohesion_of_steering c 0 b _ hget hc⟩

/-- Witness for `single_boid_rules`: one boid with velocity `(1, 0)`. -/
theorem single_boid_rules_witness :
    separation (⟨⟨[⟨V 0 0, V 1 0, V 0 0⟩]⟩, 1024, 768, 5, 1, 100⟩ : FlockController ℝ) 0
      = Except.ok ⟨⟨[⟨V 0 0, V 1 0, V 0 0⟩]⟩, 1024, 768, 5, 1, 100⟩ ∧
    alignmentSteering
      (⟨⟨[⟨V 0 0, V 1 0, V 0 0⟩]⟩, 1024, 768, 5, 1, 100⟩ : FlockController ℝ)
      ⟨V 0 0, V 1 0, V 0 0⟩ [⟨V 0 0, V 1 0, V 0 0⟩] = Except.ok (V 4 0) := by
  have h := single_boid_rules
    (⟨⟨[⟨V 0 0, V 1 0, V 0 0⟩]⟩, 1024, 768, 5, 1, 100⟩ : FlockController ℝ)
    ⟨V 0 0, V 1 0, V 0 0⟩ rfl (by norm_num)
  refine ⟨h.2.1, ?_⟩
  have h3 := (h.2.2 (by simp only [len_one_zero]; norm_num)).1
  simp only [len_one_zero] at h3
  rw [h3]
  norm_num [V]

/-- C6 (counterexample): one boid at `(0, 0)` with velocity `(1, 0)` and zero
acceleration, perception radius `100`, `maxVelocity = 5`, `maxForce = 1`:
`alignment(0)` steers by `(4, 0)`, `cohesion(0)` by `(-1, 0)`, and after the
three rules the acceleration is `(3, 0)`, not zero. -/
theorem single_boid_counterexample :
    alignmentSteering
      (⟨⟨[⟨V 0 0, V 1 0, V 0 0⟩]⟩, 1024, 768, 5, 1, 100⟩ : FlockController ℝ)
      ⟨V 0 0, V 1 0, V 0 0⟩ [⟨V 0 0, V 1 0, V 0 0⟩] = Except.ok (V 4 0) ∧
    cohesionSteering
      (⟨⟨[⟨V 0 0, V 1 0, V 0 0⟩]⟩, 1024, 768, 5, 1, 100⟩ : FlockController ℝ)
      ⟨V 0 0, V 1 0, V 0 0⟩ [⟨V 0 0, V 1 0, V 0 0⟩] = Except.ok (V (-1) 0) ∧
    applyBehavior
      (⟨⟨[⟨V 0 0, V 1 0, V 0 0⟩]⟩, 1024, 768, 5, 1, 100⟩ : FlockController ℝ) 0
      = Except.ok ⟨⟨[⟨V 0 0, V 1 0, V 3 0⟩]⟩, 1024, 768, 5, 1, 100⟩ ∧
    (V 4 0 : Vec ℝ) ≠ V 0 0 ∧ (V (-1) 0 : Vec ℝ) ≠ V 0 0 ∧ (V 3 0 : Vec ℝ) ≠ V 0 0 := by
  have hne : ∀ x : ℝ, x ≠ 0 → (V x 0 : Vec ℝ) ≠ V 0 0 := fun x hx h => hx (congrArg Vec.X h)
  have hal : ∀ a : Vec ℝ, alignmentSteering
      (⟨⟨[⟨V 0 0, V 1 0, a⟩]⟩, 1024, 768, 5, 1, 100⟩ : FlockController ℝ)
      ⟨V 0 0, V 1 0, a⟩ [⟨V 0 0, V 1 0, a⟩] = Except.ok (V 4 0) := by
    intro a
    rw [single_alignmentSteering _ _ (by norm_num) (by simp only [len_one_zero]; norm_num)]
    simp only [len_one_zero]
    norm_num [Vec.Sub, V]
  have hco : ∀ a : Vec ℝ, cohesionSteering
      (⟨⟨[⟨V 0 0, V 1 0, a⟩]⟩, 1024, 768, 5, 1, 100⟩ : FlockController ℝ)
      ⟨V 0 0, V 1 0, a⟩ [⟨V 0 0, V 1 0, a⟩] = Except.ok (V (-1) 0) := by
    intro a
    rw [single_cohesionSteering _ _ (by norm_num)]
    unfold clampForce
    simp only [len_zero_sub, len_one_zero]
    norm_num [Vec.Sub, V]
  have hse : ∀ a : Vec ℝ, separationSteering
      (⟨⟨[⟨V 0 0, V 1 0, a⟩]⟩, 1024, 768, 5, 1, 100⟩ : FlockController ℝ)
      ⟨V 0 0, V 1 0, a⟩ [⟨V 0 0, V 1 0, a⟩] = Except.ok (V 0 0) :=
    fun a => single_separationSteering _ _
  refine ⟨hal _, hco _, ?_, hne 4 (by norm_num), hne (-1) (by norm_num), hne 3 (by norm_num)⟩
  have h1 : alignment
      (⟨⟨[⟨V 0 0, V 1 0, V 0 0⟩]⟩, 1024, 768, 5, 1, 100⟩ : FlockController ℝ) 0
      = Except.ok ⟨⟨[⟨V 0 0, V 1 0, V 4 0⟩]⟩, 1024, 768, 5, 1, 100⟩ := by
    rw [alignment_of_steering
      (⟨⟨[⟨V 0 0, V 1 0, V 0 0⟩]⟩, 1024, 768, 5, 1, 100⟩ : FlockController ℝ) 0
      ⟨V 0 0, V 1 0, V 0 0⟩ (V 4 0) rfl (hal _)]
    norm_num [FlockController.setBoid, Vec.Add, V]
  have h2 : cohesion
      (⟨⟨[⟨V 0 0, V 1 0, V 4 0⟩]⟩, 1024, 768, 5, 1, 100⟩ : FlockController ℝ) 0
      = Except.ok ⟨⟨[⟨V 0 0, V 1 0, V 3 0⟩]⟩, 1024, 768, 5, 1, 100⟩ := by
    rw [cohesion_of_steering
      (⟨⟨[⟨V 0 0, V 1 0, V 4 0⟩]⟩, 1024, 768, 5, 1, 100⟩ : FlockController ℝ) 0
      ⟨V 0 0, V 1 0, V 4 0⟩ (V (-1) 0) rfl (hco _)]
    norm_num [FlockController.setBoid, Vec.Add, V]
  have h3 : separation
      (⟨⟨[⟨V 0 0, V 1 0, V 3 0⟩]⟩, 1024, 768, 5, 1, 100⟩ : FlockController ℝ) 0
      = Except.ok ⟨⟨[⟨V 0 0, V 1 0, V 3 0⟩]⟩, 1024, 768, 5, 1, 100⟩ := by
    rw [separation_of_steering
      (⟨⟨[⟨V 0 0, V 1 0, V 3 0⟩]⟩, 1024, 768, 5, 1, 100⟩ : FlockController ℝ) 0
      ⟨V 0 0, V 1 0, V 3 0⟩ (V 0 0) rfl (hse _)]
    norm_num [FlockController.setBoid, Vec.Add, V]
  simp only [applyBehavior, h1, h2, h3]

end SingleBoidClaims

section AlignmentDefect

/-- C7 (the code at the failing input): two boids at `(0, 0)` with velocities
`(1, 0)` and `(-1, 0)`, perception radius `50`. Both are within the radius of
boid `0` and their velocities sum to `(0, 0)`; `alignment(0)` then divides the
zero average by its length `0` instead of leaving it unrescaled. -/
theorem alignment_zero_average_divides_by_zero :
    alignmentScan (50 : ℝ) ⟨V 0 0, V 1 0, V 0 0⟩
      [⟨V 0 0, V 1 0, V 0 0⟩, ⟨V 0 0, V (-1) 0, V 0 0⟩] = (V 0 0, 2) ∧
    alignment (⟨⟨[⟨V 0 0, V 1 0, V 0 0⟩, ⟨V 0 0, V (-1) 0, V 0 0⟩]⟩, 1024, 768, 5, 1, 50⟩ :
        FlockController ℝ) 0 = Except.error Fault.divisionByZero := by
  have hscan : alignmentScan (50 : ℝ) ⟨V 0 0, V 1 0, V 0 0⟩
      [⟨V 0 0, V 1 0, V 0 0⟩, ⟨V 0 0, V (-1) 0, V 0 0⟩] = (V 0 0, 2) := by
    simp [alignmentScan, len_sub_self, Vec.Add, V]
  refine ⟨hscan, ?_⟩
  have hs := alignmentSteering_zero_sum
    (⟨⟨[⟨V 0 0, V 1 0, V 0 0⟩, ⟨V 0 0, V (-1) 0, V 0 0⟩]⟩, 1024, 768, 5, 1, 50⟩ :
      FlockController ℝ) ⟨V 0 0, V 1 0, V 0 0⟩
    [⟨V 0 0, V 1 0, V 0 0⟩, ⟨V 0 0, V (-1) 0, V 0 0⟩]
    (by rw [hscan]; norm_num) (by rw [hscan])
  simp only [alignment, List.getElem?_cons_zero, hs]

/-- The boids at `(0, 0)` and `(10, 0)` are at distance `10`. -/
theorem len_ten (x : ℝ) (h : x * x = 100) : (⟨x, 0⟩ : Vec ℝ).Len = 10 := by
  rw [len_def]
  simp only [mul_zero, add_zero, h]
  rw [show (100 : ℝ) = 10 * 10 by norm_num]
  exact Real.sqrt_mul_self (by norm_num)

/-- C9 (the code at the scenario): boids at `(0, 0)` and `(10, 0)` with
velocities `(1, 0)` and `(-1, 0)`, perception radius `50`, `maxVelocity = 5`,
`maxForce = 1`. For either boid both boids are within the radius and their
velocities sum to `(0, 0)`, so the `alignment` step of `applyBehavior` divides
by the zero length of the average and no real acceleration results. -/
theorem scenario_alignment_divides_by_zero :
    applyBehavior
      (⟨⟨[⟨V 0 0, V 1 0, V 0 0⟩, ⟨V 10 0, V (-1) 0, V 0 0⟩]⟩, 1024, 768, 5, 1, 50⟩ :
        FlockController ℝ) 0 = Except.error Fault.divisionByZero ∧
    applyBehavior
      (⟨⟨[⟨V 0 0, V 1 0, V 0 0⟩, ⟨V 10 0, V (-1) 0, V 0 0⟩]⟩, 1024, 768, 5, 1, 50⟩ :
        FlockController ℝ) 1 = Except.error Fault.divisionByZero := by
  have hscan : ∀ cur : Boid ℝ, cur.position = V 0 0 ∨ cur.position = V 10 0 →
      alignmentScan (50 : ℝ) cur
        [⟨V 0 0, V 1 0, V 0 0⟩, ⟨V 10 0, V (-1) 0, V 0 0⟩] = (V 0 0, 2) := by
    intro cur hcur
    rcases hcur with hc | hc
    · have e1 : (cur.position.Sub (V 0 0 : Vec ℝ)).Len = 0 := by
        rw [hc]; exact len_sub_self _
      have e2 : (cur.position.Sub (V 10 0 : Vec ℝ)).Len = 10 := by
        rw [hc]
        have := len_ten (0 - 10) (by norm_num)
        simpa [Vec.Sub, V] using this
      simp only [alignmentScan, List.foldl, e1, e2]
      norm_num [Vec.Add, V]
    · have e1 : (cur.position.Sub (V 0 0 : Vec ℝ)).Len = 10 := by
        rw [hc]
        have := len_ten (10 - 0) (by norm_num)
        simpa [Vec.Sub, V] using this
      have e2 : (cur.position.Sub (V 10 0 : Vec ℝ)).Len = 0 := by
        rw [hc]; exact len_sub_self _
      simp only [alignmentScan, List.foldl, e1, e2]
      norm_num [Vec.Add, V]
  have hs : ∀ cur : Boid ℝ, cur.position = V 0 0 ∨ cur.position = V 10 0 →
      alignmentSteering
        (⟨⟨[⟨V 0 0, V 1 0, V 0 0⟩, ⟨V 10 0, V (-1) 0, V 0 0⟩]⟩, 1024, 768, 5, 1, 50⟩ :
          FlockController ℝ) cur
        [⟨V 0 0, V 1 0, V 0 0⟩, ⟨V 10 0, V (-1) 0, V 0 0⟩]
        = Except.error Fault.divisionByZero := by
    intro cur hcur
    have h2 := hscan cur hcur
    exact alignmentSteering_zero_sum _ cur _ (by
      show (alignmentScan (50 : ℝ) cur _).2 > 0
      rw [h2]; norm_num) (by
      show (alignmentScan (50 : ℝ) cur _).1 = V 0 0
      rw [h2])
  constructor
  · simp only [applyBehavior, alignment, List.getElem?_cons_zero,
      hs ⟨V 0 0, V 1 0, V 0 0⟩ (Or.inl rfl)]
  · simp only [applyBehavior, alignment, List.getElem?_cons_succ, List.getElem?_cons_zero,
      hs ⟨V 10 0, V (-1) 0, V 0 0⟩ (Or.inr rfl)]

end AlignmentDefect

/-! ## Frame of the steering rules, and the missing clamp of `alignment` -/

section FrameLemmas

variable {F : Type}

/-- Writing boid `i` keeps the number of boids. -/
theorem setBoid_length (c : FlockController F) (i : Nat) (b1 : Boid F) :
    (c.setBoid i b1).flock.boids.length = c.flock.boids.length := by
  simp [FlockController.setBoid]

/-- Writing boid `i` keeps every other boid. -/
theorem setBoid_getElem_ne (c : FlockController F) (i j : Nat) (b1 : Boid F) (h : j ≠ i) :
    (c.setBoid i b1).flock.boids[j]? = c.flock.boids[j]? := by
  simp only [FlockController.setBoid]
  exact List.getElem?_set_ne (Ne.symm h)

/-- Writing boid `i` again replaces the earlier write. -/
theorem setBoid_setBoid (c : FlockController F) (i : Nat) (b1 b2 : Boid F) :
    (c.setBoid i b1).setBoid i b2 = c.setBoid i b2 := by
  simp [FlockController.setBoid]

end FrameLemmas

section FrameClaims

variable {F : Type} [LinearOrderedField F] [HasSqrt F]

/-- C12: for every flock and valid index `i` with boid `b`, each of
`alignment(i)`, `cohesion(i)`, `separation(i)`, when it returns, returns the
controller in which boid `i` is `b` with its steering vector added to the
previous acceleration; such a controller has the same number of boids, the
same positions and velocities of all boids, the same boid at every other
index, and the same configuration. -/
theorem rules_change_only_acceleration [HasVecEq F] (c : FlockController F) (i : Nat) (b : Boid F)
    (h : c.flock.boids[i]? = some b) :
    (∀ c1, alignment c i = Except.ok c1 ↔
      ∃ s, alignmentSteering c b c.flock.boids = Except.ok s ∧
        c1 = c.setBoid i { b with acceleration := b.acceleration.Add s }) ∧
    (∀ c1, cohesion c i = Except.ok c1 ↔
      ∃ s, cohesionSteering c b c.flock.boids = Except.ok s ∧
        c1 = c.setBoid i { b with acceleration := b.acceleration.Add s }) ∧
    (∀ c1, separation c i = Except.ok c1 ↔
      ∃ s, separationSteering c b c.flock.boids = Except.ok s ∧
        c1 = c.setBoid i { b with acceleration := b.acceleration.Add s }) ∧
    (∀ s : Vec F,
      (c.setBoid i { b with acceleration := b.acceleration.Add s }).flock.boids.length
        = c.flock.boids.length ∧
      (c.setBoid i { b with acceleration := b.acceleration.Add s }).flock.boids[i]?
        = some ⟨b.position, b.velocity, b.acceleration.Add s⟩ ∧
      (∀ j, j ≠ i →
        (c.setBoid i { b with acceleration := b.acceleration.Add s }).flock.boids[j]?
          = c.flock.boids[j]?) ∧
      (c.setBoid i { b with acceleration := b.acceleration.Add s }).flock.boids.map
          Boid.position = c.flock.boids.map Boid.position ∧
      (c.setBoid i { b with acceleration := b.acceleration.Add s }).flock.boids.map
          Boid.velocity = c.flock.boids.map Boid.velocity ∧
      (c.setBoid i { b with acceleration := b.acceleration.Add s }).maxX = c.maxX ∧
      (c.setBoid i { b with acceleration := b.acceleration.Add s }).maxY = c.maxY ∧
      (c.setBoid i { b with acceleration := b.acceleration.Add s }).maxVelocity
        = c.maxVelocity ∧
      (c.setBoid i { b with acceleration := b.acceleration.Add s }).maxForce = c.maxForce ∧
      (c.setBoid i { b with acceleration := b.acceleration.Add s }).perception
        = c.perception) := by
  refine ⟨?_, ?_, ?_, ?_⟩
  · intro c1
    constructor
    · intro h1
      obtain ⟨b0, s, hb, hs, hc⟩ := alignment_ok c c1 i h1
      rw [h] at hb
      simp only [Option.some.injEq] at hb
      subst hb
      exact ⟨s, hs, hc⟩
    · rintro ⟨s, hs, hc⟩
      rw [hc]
      exact alignment_of_steering c i b s h hs
  · intro c1
    constructor
    · intro h1
      obtain ⟨b0, s, hb, hs, hc⟩ := cohesion_ok c c1 i h1
      rw [h] at hb
      simp only [Option.some.injEq] at hb
      subst hb
      exact ⟨s, hs, hc⟩
    · rintro ⟨s, hs, hc⟩
      rw [hc]
      exact cohesion_of_steering c i b s h hs
  · intro c1
    constructor
    · intro h1
      obtain ⟨b0, s, hb, hs, hc⟩ := separation_ok c c1 i h1
      rw [h] at hb
      simp only [Option.some.injEq] at hb
      subst hb
      exact ⟨s, hs, hc⟩
    · rintro ⟨s, hs, hc⟩
      rw [hc]
      exact separation_of_steering c i b s h hs
  · intro s
    exact ⟨setBoid_length c i _, setBoid_getElem c i b _ h,
      fun j hj => setBoid_getElem_ne c i j _ hj,
      list_map_set Boid.position _ i b _ h rfl,
      list_map_set Boid.velocity _ i b _ h rfl, rfl, rfl, rfl, rfl, rfl⟩

end FrameClaims

section AlignmentClampClaims

/-- A vector along the positive `x` axis has its `x` component as length. -/
theorem len_axis (x : ℝ) (hx : 0 ≤ x) : (V x 0 : Vec ℝ).Len = x := by
  rw [len_def]
  simp only [V, mul_zero, add_zero]
  exact Real.sqrt_mul_self hx

/-- Witness for `rules_change_only_acceleration`: `cohesion(0)` on one boid
with velocity `(1, 0)` and acceleration `(4, 0)`, `maxForce = 1`. -/
theorem rules_change_only_acceleration_witness :
    cohesion (⟨⟨[⟨V 0 0, V 1 0, V 4 0⟩]⟩, 1024, 768, 5, 1, 100⟩ : FlockController ℝ) 0
      = Except.ok ((⟨⟨[⟨V 0 0, V 1 0, V 4 0⟩]⟩, 1024, 768, 5, 1, 100⟩ :
          FlockController ℝ).setBoid 0 ⟨V 0 0, V 1 0, (V 4 0 : Vec ℝ).Add (V (-1) 0)⟩) := by
  have hco : cohesionSteering
      (⟨⟨[⟨V 0 0, V 1 0, V 4 0⟩]⟩, 1024, 768, 5, 1, 100⟩ : FlockController ℝ)
      ⟨V 0 0, V 1 0, V 4 0⟩ [⟨V 0 0, V 1 0, V 4 0⟩] = Except.ok (V (-1) 0) := by
    rw [single_cohesionSteering _ _ (by norm_num)]
    unfold clampForce
    simp only [len_zero_sub, len_one_zero]
    norm_num [Vec.Sub, V]
  exact ((rules_change_only_acceleration
    (⟨⟨[⟨V 0 0, V 1 0, V 4 0⟩]⟩, 1024, 768, 5, 1, 100⟩ : FlockController ℝ) 0
    ⟨V 0 0, V 1 0, V 4 0⟩ rfl).2.1 _).mpr ⟨V (-1) 0, hco, rfl⟩

/-- C11: `alignment` applies no `maxForce` clamp. For the single boid at
`(0, 0)` with velocity `(1, 0)`, `maxVelocity = 5`, `maxForce = 1 ≥ 0` and
perception radius `100`, the steering vector that `alignment(0)` adds to the
acceleration is `(4, 0)`, of length `4 > maxForce`. -/
theorem alignment_exceeds_maxForce :
    ∃ (c : FlockController ℝ) (i : Nat) (b : Boid ℝ) (s : Vec ℝ),
      c = ⟨⟨[⟨V 0 0, V 1 0, V 0 0⟩]⟩, 1024, 768, 5, 1, 100⟩ ∧ i = 0 ∧ s = V 4 0 ∧
      0 ≤ c.maxForce ∧ c.flock.boids[i]? = some b ∧
      alignmentSteering c b c.flock.boids = Except.ok s ∧
      alignment c i
        = Except.ok (c.setBoid i { b with acceleration := b.acceleration.Add s }) ∧
      s.Len = 4 ∧ c.maxForce < s.Len := by
  have hal : alignmentSteering
      (⟨⟨[⟨V 0 0, V 1 0, V 0 0⟩]⟩, 1024, 768, 5, 1, 100⟩ : FlockController ℝ)
      ⟨V 0 0, V 1 0, V 0 0⟩ [⟨V 0 0, V 1 0, V 0 0⟩] = Except.ok (V 4 0) := by
    rw [single_alignmentSteering _ _ (by norm_num) (by simp only [len_one_zero]; norm_num)]
    simp only [len_one_zero]
    norm_num [Vec.Sub, V]
  have hlen : (V 4 0 : Vec ℝ).Len = 4 := len_axis 4 (by norm_num)
  refine ⟨⟨⟨[⟨V 0 0, V 1 0, V 0 0⟩]⟩, 1024, 768, 5, 1, 100⟩, 0, ⟨V 0 0, V 1 0, V 0 0⟩,
    V 4 0, rfl, rfl, rfl, ?_, rfl, hal, ?_, hlen, ?_⟩
  · norm_num
  · exact alignment_of_steering
      (⟨⟨[⟨V 0 0, V 1 0, V 0 0⟩]⟩, 1024, 768, 5, 1, 100⟩ : FlockController ℝ) 0
      ⟨V 0 0, V 1 0, V 0 0⟩ (V 4 0) rfl hal
  · rw [hlen]; norm_num

end AlignmentClampClaims

/-! ## Range and idempotence of the wrap -/

section WrapRange

variable {F : Type} [LinearOrderedField F]

/-- One axis of `wrap`, applied to its own result, changes nothing. -/
theorem wrap_axis_idem (m x : F) :
    (if (if x > m then 0 else if x < 0 then m else x) > m then 0
      else if (if x > m then 0 else if x < 0 then m else x) < 0 then m
      else (if x > m then 0 else if x < 0 then m else x))
    = (if x > m then 0 else if x < 0 then m else x) := by
  by_cases h1 : x > m
  · simp only [h1, if_true]
    by_cases h3 : (0 : F) > m
    · simp only [h3, if_true]
    · simp only [h3, if_false, lt_irrefl, if_false]
  · simp only [h1, if_false]
    by_cases h2 : x < 0
    · simp only [h2, if_true, gt_iff_lt, lt_irrefl, if_false, ite_self]
    · simp only [h2, if_false, h1]

/-- C18: the wrap step is idempotent: for all bounds and every boid position,
one pass of the body of `wrap` at a valid index returns a controller that a
second pass returns unchanged. -/
theorem wrap_idempotent (c : FlockController F) (i : Nat) (b : Boid F)
    (h : c.flock.boids[i]? = some b) :
    ∃ c1, wrap c i = Except.ok c1 ∧ wrap c1 i = Except.ok c1 := by
  refine ⟨_, wrap_eq c i b h, ?_⟩
  rw [wrap_eq _ i _ (setBoid_getElem c i b _ h)]
  simp only [FlockController.setBoid, gt_iff_lt, List.set_set]
  have hX := wrap_axis_idem c.maxX b.position.X
  have hY := wrap_axis_idem c.maxY b.position.Y
  simp only [gt_iff_lt] at hX hY
  rw [hX, hY]

/-- Witness for `wrap_idempotent`: a boid at `(2000, -3)` in the `1024 x 768`
world goes to `(0, 768)` and stays there. -/
theorem wrap_idempotent_witness :
    ∃ c1,
      wrap (⟨⟨[⟨V 2000 (-3), V 1 0, V 0 0⟩]⟩, 1024, 768, 5, 1, 100⟩ : FlockController ℚ) 0
        = Except.ok c1 ∧
      wrap c1 0 = Except.ok c1 :=
  wrap_idempotent
    (⟨⟨[⟨V 2000 (-3), V 1 0, V 0 0⟩]⟩, 1024, 768, 5, 1, 100⟩ : FlockController ℚ) 0
    ⟨V 2000 (-3), V 1 0, V 0 0⟩ rfl

end WrapRange

/-! ## No division by a zero length outside `alignment` -/

section DivisionClaims

/-- C15: over the reals, for every flock, valid index `i`, `maxVelocity ≥ 0`
and `maxForce ≥ 0`, `cohesion(i)`, `separation(i)` and one pass of the body of
`reposition(i)` return without dividing by zero: a neighbour of `separation`
at a different position is at a strictly positive distance, the neighbour loop
of `separation` returns, both guarded rescales return, and a length above
`maxForce` or `maxVelocity` is strictly positive. -/
theorem no_zero_division [HasVecEq ℝ] (c : FlockController ℝ) (i : Nat) (b : Boid ℝ)
    (h : c.flock.boids[i]? = some b) (hv : 0 ≤ c.maxVelocity) (hf : 0 ≤ c.maxForce) :
    (∃ c1, cohesion c i = Except.ok c1) ∧
    (∃ c1, separation c i = Except.ok c1) ∧
    (∃ c1, reposition c i = Except.ok c1) ∧
    (∀ x : Boid ℝ, x.position.Eq b.position = false →
      0 < (x.position.Sub b.position).Len) ∧
    (∀ acc, ∃ r, separationScan c.perception b acc c.flock.boids = Except.ok r) ∧
    (∀ u : Vec ℝ, ∃ u1, rescaleIfNonzero c.maxVelocity u = Except.ok u1) ∧
    (∀ s : Vec ℝ, ∃ s1, clampForce c.maxForce s = Except.ok s1) ∧
    (∀ s : Vec ℝ, c.maxForce < s.Len → 0 < s.Len) ∧
    (∀ w : Vec ℝ, c.maxVelocity < w.Len → 0 < w.Len) := by
  obtain ⟨sc, hsc, _⟩ := cohesionSteering_bounded c b c.flock.boids hf
  obtain ⟨ss, hss, _⟩ := separationSteering_bounded c b c.flock.boids hf
  refine ⟨⟨_, cohesion_of_steering c i b sc h hsc⟩,
    ⟨_, separation_of_steering c i b ss h hss⟩, ⟨_, reposition_eq c i b h hv⟩, ?_,
    fun acc => separationScan_total c.perception b c.flock.boids acc,
    fun u => rescaleIfNonzero_total c.maxVelocity u, ?_,
    fun s hs => lt_of_le_of_lt hf hs, fun w hw => lt_of_le_of_lt hv hw⟩
  · intro x hx
    exact lt_of_le_of_ne (len_nonneg _) (Ne.symm (len_sub_ne_zero _ _ hx))
  · intro s
    obtain ⟨s1, hs1, _⟩ := clampForce_bounded c.maxForce hf s
    exact ⟨s1, hs1⟩

/-- Witness for `no_zero_division`: the two boids at `(0, 0)` and `(10, 0)`. -/
theorem no_zero_division_witness :
    (∃ c1, cohesion
      (⟨⟨[⟨V 0 0, V 1 0, V 0 0⟩, ⟨V 10 0, V (-1) 0, V 0 0⟩]⟩, 1024, 768, 5, 1, 50⟩ :
        FlockController ℝ) 0 = Except.ok c1) ∧
    (∃ c1, separation
      (⟨⟨[⟨V 0 0, V 1 0, V 0 0⟩, ⟨V 10 0, V (-1) 0, V 0 0⟩]⟩, 1024, 768, 5, 1, 50⟩ :
        FlockController ℝ) 0 = Except.ok c1) ∧
    (∃ c1, reposition
      (⟨⟨[⟨V 0 0, V 1 0, V 0 0⟩, ⟨V 10 0, V (-1) 0, V 0 0⟩]⟩, 1024, 768, 5, 1, 50⟩ :
        FlockController ℝ) 0 = Except.ok c1) := by
  have h := no_zero_division
    (⟨⟨[⟨V 0 0, V 1 0, V 0 0⟩, ⟨V 10 0, V (-1) 0, V 0 0⟩]⟩, 1024, 768, 5, 1, 50⟩ :
      FlockController ℝ) 0 ⟨V 0 0, V 1 0, V 0 0⟩ rfl (by norm_num) (by norm_num)
  exact ⟨h.1, h.2.1, h.2.2.1⟩

end DivisionClaims

/-! ## Construction -/

section ConstructionLemmas

variable {F : Type} [LinearOrderedField F]

/-- The loop of `NewFlock` appends one new boid per iteration. -/
theorem NewFlockLoop_eq (draw : Nat → F) :
    ∀ (n i : Nat) (boids : List (Boid F)),
      NewFlockLoop draw n i boids
        = boids ++ (List.range n).map (fun j => NewBoid (fun k => draw (6 * (i + j) + k))) := by
  intro n
  induction n with
  | zero => intro i boids; simp [NewFlockLoop]
  | succ n ih =>
    intro i boids
    simp only [NewFlockLoop]
    rw [ih, List.range_succ_eq_map, List.map_cons, List.map_map, List.append_assoc]
    simp only [List.singleton_append, Nat.add_zero]
    congr 2
    apply List.map_congr_left
    intro j _
    simp only [Function.comp_apply]
    have hj : i + 1 + j = i + Nat.succ j := by omega
    rw [hj]

/-- The flock that `NewFlock` returns, boid by boid. -/
theorem NewFlock_boids (size : Int) (draw : Nat → F) :
    (NewFlock size draw).boids
      = (List.range size.toNat).map (fun j => NewBoid (fun k => draw (6 * j + k))) := by
  simp only [NewFlock]
  rw [NewFlockLoop_eq]
  simp

/-- The function `NewFlock` returns `size` boids, none for `size ≤ 0`. -/
theorem NewFlock_length (size : Int) (draw : Nat → F) :
    (NewFlock size draw).boids.length = size.toNat := by
  rw [NewFlock_boids]
  simp

/-- Boid `i` of the new flock is made from the draws `6 * i, ..., 6 * i + 5`. -/
theorem NewFlock_getElem (size : Int) (draw : Nat → F) (i : Nat) (hi : i < size.toNat) :
    (NewFlock size draw).boids[i]? = some (NewBoid (fun k => draw (6 * i + k))) := by
  rw [NewFlock_boids]
  simp [hi]

/-- What the draws do guarantee: a new boid has `0 ≤ x < 768` and
`0 ≤ y < 1024`. -/
theorem NewBoid_position_range (draw : Nat → F)
    (h0 : 0 ≤ draw 0 ∧ draw 0 < 1) (h1 : 0 ≤ draw 1 ∧ draw 1 < 1) :
    0 ≤ (NewBoid draw).position.X ∧ (NewBoid draw).position.X < 768 ∧
    0 ≤ (NewBoid draw).position.Y ∧ (NewBoid draw).position.Y < 1024 := by
  simp only [NewBoid, V]
  refine ⟨?_, ?_, ?_, ?_⟩
  · exact mul_nonneg h0.1 (by norm_num)
  · linarith [h0.2]
  · exact mul_nonneg h1.1 (by norm_num)
  · linarith [h1.2]

end ConstructionLemmas

section ConstructionClaims

variable {F : Type} [LinearOrderedField F]

/-- C13 (as amended): construction performs no validation and cannot fail:
for every `size` and every outcome of the draws `NewFlock(size)` returns a
flock, of `size` boids for `size ≥ 0` and the empty flock for `size ≤ 0`, and
a `FlockController` holding it is a value for all bounds, limits and
perception radius, non-positive ones included, on which `wrap` returns at
every index of the flock. -/
theorem construction_never_rejects (size : Int) (draw : Nat → F)
    (maxX maxY maxVelocity maxForce perception : F) :
    (NewFlock size draw).boids.length = size.toNat ∧
    (size ≤ 0 → NewFlock size draw = ⟨[]⟩) ∧
    (∀ i, i < size.toNat →
      ∃ c1, wrap ⟨NewFlock size draw, maxX, maxY, maxVelocity, maxForce, perception⟩ i
        = Except.ok c1 ∧
        c1.flock.boids.length = size.toNat ∧ c1.maxX = maxX ∧ c1.maxY = maxY ∧
        c1.perception = perception) := by
  refine ⟨NewFlock_length size draw, ?_, ?_⟩
  · intro hs
    have h0 : size.toNat = 0 := Int.toNat_eq_zero.mpr hs
    simp only [NewFlock, h0, NewFlockLoop]
  · intro i hi
    have hget := NewFlock_getElem size draw i hi
    refine ⟨_, wrap_eq ⟨NewFlock size draw, maxX, maxY, maxVelocity, maxForce, perception⟩
      i _ hget, ?_, rfl, rfl, rfl⟩
    rw [setBoid_length]
    exact NewFlock_length size draw

/-- Witness for `construction_never_rejects`: size `0` gives the empty flock,
and a flock of one boid under bounds `-1` and perception radius `-100` is
wrapped. -/
theorem construction_never_rejects_witness :
    NewFlock 0 (fun _ => (0 : ℚ)) = ⟨[]⟩ ∧
    ∃ c1, wrap (⟨NewFlock 1 (fun _ => (0 : ℚ)), -1, -1, 5, 1, -100⟩ : FlockController ℚ) 0
      = Except.ok c1 ∧ c1.maxX = -1 ∧ c1.perception = -100 := by
  refine ⟨(construction_never_rejects 0 (fun _ => (0 : ℚ)) 0 0 0 0 0).2.1 (le_refl 0), ?_⟩
  obtain ⟨c1, h1, _, h2, _, h3⟩ :=
    (construction_never_rejects 1 (fun _ => (0 : ℚ)) (-1) (-1) 5 1 (-100)).2.2 0 (by decide)
  exact ⟨c1, h1, h2, h3⟩

/-- C13 (counterexample): `NewFlock(0)` returns the empty flock rather than
an error, and the controller with bounds `-1 x -1` and perception radius
`-100` around a flock of one boid is a controller on which `wrap(0)` runs. -/
theorem construction_accepts_invalid_counterexample :
    NewFlock 0 (fun _ => (0 : ℚ)) = ⟨[]⟩ ∧
    wrap (⟨NewFlock 1 (fun _ => (0 : ℚ)), -1, -1, 5, 1, -100⟩ : FlockController ℚ) 0
      = Except.ok ⟨⟨[⟨V 0 0, V (-5) (-5), V (-1 / 4) (-1 / 4)⟩]⟩, -1, -1, 5, 1, -100⟩ := by
  constructor
  · rfl
  · have hget : (⟨NewFlock 1 (fun _ => (0 : ℚ)), -1, -1, 5, 1, -100⟩ :
        FlockController ℚ).flock.boids[0]? = some (NewBoid (fun _ => (0 : ℚ))) :=
      NewFlock_getElem 1 (fun _ => (0 : ℚ)) 0 (by decide)
    rw [wrap_eq _ 0 _ hget]
    have hb : (NewFlock 1 (fun _ => (0 : ℚ))).boids = [NewBoid (fun _ => (0 : ℚ))] := by
      rw [NewFlock_boids]
      rfl
    simp only [FlockController.setBoid, hb]
    norm_num [NewBoid, V]

/-- C19 (the code at the failing input): with every draw equal to `9/10`, a
value in `[0, 1)`, `NewBoid` returns a boid at `(691.2, 921.6)`: the first
draw is scaled by `768` for `x` and the second by `1024` for `y`, so `y` is
above the bound `maxY = 768` of the controller that `run` builds; this is boid
`0` of the `400` boids of that controller. -/
theorem NewBoid_above_maxY :
    (0 ≤ (9 / 10 : ℚ) ∧ (9 / 10 : ℚ) < 1) ∧
    (NewBoid (fun _ => (9 / 10 : ℚ))).position = V (3456 / 5) (4608 / 5) ∧
    (run (fun _ => (9 / 10 : ℚ))).maxX = 1024 ∧
    (run (fun _ => (9 / 10 : ℚ))).maxY = 768 ∧
    (run (fun _ => (9 / 10 : ℚ))).maxY < (NewBoid (fun _ => (9 / 10 : ℚ))).position.Y ∧
    (run (fun _ => (9 / 10 : ℚ))).flock.boids.length = 400 ∧
    (run (fun _ => (9 / 10 : ℚ))).flock.boids[0]? = some (NewBoid (fun _ => (9 / 10 : ℚ))) := by
  refine ⟨by norm_num, ?_, rfl, rfl, ?_, ?_, ?_⟩
  · norm_num [NewBoid, V]
  · norm_num [NewBoid, V, run]
  · exact NewFlock_length 400 _
  · exact NewFlock_getElem 400 (fun _ => (9 / 10 : ℚ)) 0 (by decide)

end ConstructionClaims

/-! ## The behaviour phase reads positions and velocities only -/

section SnapshotLemmas

variable {F : Type} [LinearOrderedField F]

omit [LinearOrderedField F] in
theorem samePV_refl (l : List (Boid F)) : List.Forall₂ SamePV l l := by
  induction l with
  | nil => exact List.Forall₂.nil
  | cons x xs ih => exact List.Forall₂.cons ⟨rfl, rfl⟩ ih

omit [LinearOrderedField F] in
/-- Writing a boid with the same position and velocity keeps the relation to
the snapshot. -/
theorem samePV_set (st l0 : List (Boid F)) (h : List.Forall₂ SamePV st l0) :
    ∀ (i : Nat) (b b1 : Boid F), st[i]? = some b → SamePV b1 b →
      List.Forall₂ SamePV (st.set i b1) l0 := by
  induction h with
  | nil => intro i b b1 hb; simp at hb
  | cons hxy _ ih =>
    intro i b b1 hb h1
    cases i with
    | zero =>
      simp only [List.getElem?_cons_zero, Option.some.injEq] at hb
      subst hb
      exact List.Forall₂.cons ⟨h1.1.trans hxy.1, h1.2.trans hxy.2⟩ (by assumption)
    | succ n =>
      simp only [List.getElem?_cons_succ] at hb
      exact List.Forall₂.cons hxy (ih n b b1 hb h1)

theorem fdiv_error (a b : F) (e : Fault) (h : fdiv a b = Except.error e) :
    e = Fault.divisionByZero := by
  unfold fdiv at h
  split_ifs at h
  simp only [Except.error.injEq] at h
  exact h.symm

omit [LinearOrderedField F] in
theorem map_error (u : Vec F) (f : F → Except Fault F) (e : Fault)
    (hf : ∀ v e1, f v = Except.error e1 → e1 = Fault.divisionByZero)
    (h : u.Map f = Except.error e) : e = Fault.divisionByZero := by
  unfold Vec.Map at h
  cases hx : f u.X with
  | error e1 =>
    rw [hx] at h
    simp only [Except.error.injEq] at h
    rw [← h]
    exact hf _ _ hx
  | ok x =>
    rw [hx] at h
    simp only at h
    cases hy : f u.Y with
    | error e1 =>
      rw [hy] at h
      simp only [Except.error.injEq] at h
      rw [← h]
      exact hf _ _ hy
    | ok y => rw [hy] at h; cases h

theorem divBy_error (d v : F) (e : Fault) (h : divBy d v = Except.error e) :
    e = Fault.divisionByZero := fdiv_error v d e h

theorem scaleBy_error (len m v : F) (e : Fault) (h : scaleBy len m v = Except.error e) :
    e = Fault.divisionByZero := by
  unfold scaleBy at h
  cases hq : fdiv v len with
  | error e1 =>
    rw [hq] at h
    simp only [Except.error.injEq] at h
    rw [← h]
    exact fdiv_error _ _ _ hq
  | ok q => rw [hq] at h; cases h

variable [HasSqrt F]

theorem rescaleIfNonzero_error (mv : F) (u : Vec F) (e : Fault)
    (h : rescaleIfNonzero mv u = Except.error e) : e = Fault.divisionByZero := by
  unfold rescaleIfNonzero at h
  split_ifs at h
  exact map_error _ _ e (scaleBy_error _ _) h

theorem clampForce_error (mf : F) (s : Vec F) (e : Fault)
    (h : clampForce mf s = Except.error e) : e = Fault.divisionByZero := by
  unfold clampForce at h
  split_ifs at h
  exact map_error _ _ e (scaleBy_error _ _) h

theorem alignmentSteering_error (c : FlockController F) (b : Boid F) (l : List (Boid F))
    (e : Fault) (h : alignmentSteering c b l = Except.error e) :
    e = Fault.divisionByZero := by
  unfold alignmentSteering at h
  simp only at h
  split_ifs at h
  cases h1 : (alignmentScan c.perception b l).1.Map
      (divBy ((alignmentScan c.perception b l).2 : F)) with
  | error e1 =>
    rw [h1] at h
    simp only [Except.error.injEq] at h
    rw [← h]
    exact map_error _ _ e1 (divBy_error _) h1
  | ok avgVec =>
    rw [h1] at h
    simp only at h
    cases h2 : avgVec.Map (scaleBy avgVec.Len c.maxVelocity) with
    | error e1 =>
      rw [h2] at h
      simp only [Except.error.injEq] at h
      rw [← h]
      exact map_error _ _ e1 (scaleBy_error _ _) h2
    | ok v => rw [h2] at h; cases h

theorem cohesionSteering_error (c : FlockController F) (b : Boid F) (l : List (Boid F))
    (e : Fault) (h : cohesionSteering c b l = Except.error e) :
    e = Fault.divisionByZero := by
  unfold cohesionSteering at h
  simp only at h
  split_ifs at h
  cases h1 : (cohesionScan c.perception b l).1.Map
      (divBy ((cohesionScan c.perception b l).2 : F)) with
  | error e1 =>
    rw [h1] at h
    simp only [Except.error.injEq] at h
    rw [← h]
    exact map_error _ _ e1 (divBy_error _) h1
  | ok avgPos =>
    rw [h1] at h
    simp only at h
    cases h2 : rescaleIfNonzero c.maxVelocity (avgPos.Sub b.position) with
    | error e1 =>
      rw [h2] at h
      simp only [Except.error.injEq] at h
      rw [← h]
      exact rescaleIfNonzero_error _ _ e1 h2
    | ok v =>
      rw [h2] at h
      exact clampForce_error _ _ e h

theorem separationScan_error [HasVecEq F] (p : F) (b : Boid F) (l : List (Boid F)) :
    ∀ (acc : Vec F × Nat) (e : Fault),
      separationScan p b acc l = Except.error e → e = Fault.divisionByZero := by
  induction l with
  | nil => intro acc e h; simp only [separationScan] at h; cases h
  | cons x xs ih =>
    intro acc e h
    simp only [separationScan] at h
    cases h1 : separationStep p b acc x with
    | error e1 =>
      rw [h1] at h
      simp only [Except.error.injEq] at h
      rw [← h]
      unfold separationStep at h1
      simp only at h1
      split_ifs at h1
      cases h2 : (b.position.Sub x.position).Map
          (divBy (x.position.Sub b.position).Len) with
      | error e2 =>
        rw [h2] at h1
        simp only [Except.error.injEq] at h1
        rw [← h1]
        exact map_error _ _ e2 (divBy_error _) h2
      | ok d => rw [h2] at h1; cases h1
    | ok acc1 =>
      rw [h1] at h
      exact ih acc1 e h

theorem separationSteering_error [HasVecEq F] (c : FlockController F) (b : Boid F) (l : List (Boid F))
    (e : Fault) (h : separationSteering c b l = Except.error e) :
    e = Fault.divisionByZero := by
  unfold separationSteering at h
  cases h0 : separationScan c.perception b (V 0 0, 0) l with
  | error e0 =>
    rw [h0] at h
    simp only [Except.error.injEq] at h
    rw [← h]
    exact separationScan_error _ _ _ _ _ h0
  | ok scan =>
    rw [h0] at h
    simp only at h
    split_ifs at h
    cases h1 : scan.1.Map (divBy (scan.2 : F)) with
    | error e1 =>
      rw [h1] at h
      simp only [Except.error.injEq] at h
      rw [← h]
      exact map_error _ _ e1 (divBy_error _) h1
    | ok avgVec =>
      rw [h1] at h
      simp only at h
      cases h2 : rescaleIfNonzero c.maxVelocity avgVec with
      | error e1 =>
        rw [h2] at h
        simp only [Except.error.injEq] at h
        rw [← h]
        exact rescaleIfNonzero_error _ _ e1 h2
      | ok v =>
        rw [h2] at h
        exact clampForce_error _ _ e h

/-- The neighbour loop of `alignment` reads positions and velocities only. -/
theorem alignmentScan_congr (p : F) (b b1 : Boid F) (l l1 : List (Boid F))
    (hb : SamePV b b1) (hl : List.Forall₂ SamePV l l1) :
    alignmentScan p b l = alignmentScan p b1 l1 := by
  unfold alignmentScan
  rw [hb.1]
  generalize (V (0 : F) 0, 0) = acc
  induction hl generalizing acc with
  | nil => rfl
  | cons hxy _ ih =>
    simp only [List.foldl_cons]
    rw [hxy.1, hxy.2]
    exact ih _

/-- The neighbour loop of `cohesion` reads positions only. -/
theorem cohesionScan_congr (p : F) (b b1 : Boid F) (l l1 : List (Boid F))
    (hb : SamePV b b1) (hl : List.Forall₂ SamePV l l1) :
    cohesionScan p b l = cohesionScan p b1 l1 := by
  unfold cohesionScan
  rw [hb.1]
  generalize (V (0 : F) 0, 0) = acc
  induction hl generalizing acc with
  | nil => rfl
  | cons hxy _ ih =>
    simp only [List.foldl_cons]
    rw [hxy.1]
    exact ih _

/-- The neighbour loop of `separation` reads positions only. -/
theorem separationScan_congr [HasVecEq F] (p : F) (b b1 : Boid F) (l l1 : List (Boid F))
    (hb : SamePV b b1) (hl : List.Forall₂ SamePV l l1) :
    ∀ acc, separationScan p b acc l = separationScan p b1 acc l1 := by
  induction hl with
  | nil => intro acc; rfl
  | cons hxy _ ih =>
    intro acc
    simp only [separationScan, separationStep]
    rw [hb.1, hxy.1]
    split
    · rfl
    · exact ih _

theorem alignmentSteering_congr (c c1 : FlockController F) (b b1 : Boid F)
    (l l1 : List (Boid F)) (hp : c.perception = c1.perception)
    (hm : c.maxVelocity = c1.maxVelocity)
    (hb : SamePV b b1) (hl : List.Forall₂ SamePV l l1) :
    alignmentSteering c b l = alignmentSteering c1 b1 l1 := by
  unfold alignmentSteering
  rw [hp, hm, alignmentScan_congr _ b b1 l l1 hb hl, hb.2]

theorem cohesionSteering_congr (c c1 : FlockController F) (b b1 : Boid F)
    (l l1 : List (Boid F)) (hp : c.perception = c1.perception)
    (hm : c.maxVelocity = c1.maxVelocity) (hf : c.maxForce = c1.maxForce)
    (hb : SamePV b b1) (hl : List.Forall₂ SamePV l l1) :
    cohesionSteering c b l = cohesionSteering c1 b1 l1 := by
  unfold cohesionSteering
  rw [hp, hm, hf, cohesionScan_congr _ b b1 l l1 hb hl, hb.1, hb.2]

theorem separationSteering_congr [HasVecEq F] (c c1 : FlockController F) (b b1 : Boid F)
    (l l1 : List (Boid F)) (hp : c.perception = c1.perception)
    (hm : c.maxVelocity = c1.maxVelocity) (hf : c.maxForce = c1.maxForce)
    (hb : SamePV b b1) (hl : List.Forall₂ SamePV l l1) :
    separationSteering c b l = separationSteering c1 b1 l1 := by
  unfold separationSteering
  rw [hp, hm, hf, separationScan_congr _ b b1 l l1 hb hl, hb.2]

/-- The spec-side steering of one boid does not depend on accelerations in
the snapshot. -/
theorem snapshotSteer_congr [HasVecEq F] (c c1 : FlockController F) (b : Boid F)
    (l l1 : List (Boid F)) (hp : c.perception = c1.perception)
    (hm : c.maxVelocity = c1.maxVelocity) (hf : c.maxForce = c1.maxForce)
    (hl : List.Forall₂ SamePV l l1) :
    snapshotSteer c l b = snapshotSteer c1 l1 b := by
  unfold snapshotSteer
  rw [alignmentSteering_congr c c1 b b l l1 hp hm ⟨rfl, rfl⟩ hl,
    cohesionSteering_congr c c1 b b l l1 hp hm hf ⟨rfl, rfl⟩ hl,
    separationSteering_congr c c1 b b l l1 hp hm hf ⟨rfl, rfl⟩ hl]

/-- The spec-side steering of one boid writes its acceleration only. -/
theorem snapshotSteer_samePV [HasVecEq F] (c : FlockController F) (l : List (Boid F)) (b b1 : Boid F)
    (h : snapshotSteer c l b = Except.ok b1) : SamePV b1 b := by
  unfold snapshotSteer at h
  cases h1 : alignmentSteering c b l with
  | error e => rw [h1] at h; cases h
  | ok sa =>
    rw [h1] at h
    simp only at h
    cases h2 : cohesionSteering c b l with
    | error e => rw [h2] at h; cases h
    | ok sc =>
      rw [h2] at h
      simp only at h
      cases h3 : separationSteering c b l with
      | error e => rw [h3] at h; cases h
      | ok ss =>
        rw [h3] at h
        simp only [Except.ok.injEq] at h
        rw [← h]
        exact ⟨rfl, rfl⟩

/-- The spec-side steering of one boid can only stop at a division by zero. -/
theorem snapshotSteer_error [HasVecEq F] (c : FlockController F) (l : List (Boid F)) (b : Boid F)
    (e : Fault) (h : snapshotSteer c l b = Except.error e) :
    e = Fault.divisionByZero := by
  unfold snapshotSteer at h
  cases h1 : alignmentSteering c b l with
  | error e1 =>
    rw [h1] at h
    simp only [Except.error.injEq] at h
    rw [← h]
    exact alignmentSteering_error c b l e1 h1
  | ok sa =>
    rw [h1] at h
    simp only at h
    cases h2 : cohesionSteering c b l with
    | error e1 =>
      rw [h2] at h
      simp only [Except.error.injEq] at h
      rw [← h]
      exact cohesionSteering_error c b l e1 h2
    | ok sc =>
      rw [h2] at h
      simp only at h
      cases h3 : separationSteering c b l with
      | error e1 =>
        rw [h3] at h
        simp only [Except.error.injEq] at h
        rw [← h]
        exact separationSteering_error c b l e1 h3
      | ok ss => rw [h3] at h; cases h

/-- One pass of the body of `applyBehavior` at a valid index is the spec-side
steering of that boid against the current flock. -/
theorem applyBehavior_eq_snapshotSteer [HasVecEq F] (c : FlockController F) (i : Nat) (b : Boid F)
    (h : c.flock.boids[i]? = some b) :
    applyBehavior c i =
      match snapshotSteer c c.flock.boids b with
      | Except.error e => Except.error e
      | Except.ok b1 => Except.ok (c.setBoid i b1) := by
  unfold applyBehavior snapshotSteer
  cases h1 : alignmentSteering c b c.flock.boids with
  | error e =>
    simp only [alignment, h, h1]
  | ok sa =>
    rw [alignment_of_steering c i b sa h h1]
    simp only
    have hg1 : (c.setBoid i { b with acceleration := b.acceleration.Add sa }).flock.boids[i]?
        = some { b with acceleration := b.acceleration.Add sa } := setBoid_getElem c i b _ h
    have hl1 : List.Forall₂ SamePV
        (c.setBoid i { b with acceleration := b.acceleration.Add sa }).flock.boids
        c.flock.boids :=
      samePV_set _ _ (samePV_refl _) i b _ h ⟨rfl, rfl⟩
    have e2 : cohesionSteering (c.setBoid i { b with acceleration := b.acceleration.Add sa })
        { b with acceleration := b.acceleration.Add sa }
        (c.setBoid i { b with acceleration := b.acceleration.Add sa }).flock.boids
        = cohesionSteering c b c.flock.boids :=
      cohesionSteering_congr _ _ _ _ _ _ rfl rfl rfl ⟨rfl, rfl⟩ hl1
    cases h2 : cohesionSteering c b c.flock.boids with
    | error e =>
      rw [h2] at e2
      simp only [cohesion, hg1, e2]
    | ok sc =>
      rw [h2] at e2
      rw [cohesion_of_steering _ i _ sc hg1 e2]
      simp only [setBoid_setBoid]
      have hg2 : (c.setBoid i
          { b with acceleration := (b.acceleration.Add sa).Add sc }).flock.boids[i]?
          = some { b with acceleration := (b.acceleration.Add sa).Add sc } :=
        setBoid_getElem c i b _ h
      have hl2 : List.Forall₂ SamePV
          (c.setBoid i { b with acceleration := (b.acceleration.Add sa).Add sc }).flock.boids
          c.flock.boids :=
        samePV_set _ _ (samePV_refl _) i b _ h ⟨rfl, rfl⟩
      have e3 : separationSteering
          (c.setBoid i { b with acceleration := (b.acceleration.Add sa).Add sc })
          { b with acceleration := (b.acceleration.Add sa).Add sc }
          (c.setBoid i { b with acceleration := (b.acceleration.Add sa).Add sc }).flock.boids
          = separationSteering c b c.flock.boids :=
        separationSteering_congr _ _ _ _ _ _ rfl rfl rfl ⟨rfl, rfl⟩ hl2
      cases h3 : separationSteering c b c.flock.boids with
      | error e =>
        rw [h3] at e3
        simp only [separation, hg2, e3]
      | ok ss =>
        rw [h3] at e3
        rw [separation_of_steering _ i _ ss hg2 e3]
        simp only [setBoid_setBoid]

/-- The spec-side behaviour phase on a list: either every boid is steered, or
some boid stops at a division by zero. -/
theorem snapshotBoids_cases [HasVecEq F] (c : FlockController F) (snapshot : List (Boid F)) :
    ∀ l : List (Boid F),
      (∃ L, snapshotBoids c snapshot l = Except.ok L ∧ L.length = l.length ∧
        ∀ (j : Nat) (b : Boid F), l[j]? = some b →
          ∃ b1, snapshotSteer c snapshot b = Except.ok b1 ∧ L[j]? = some b1) ∨
      (snapshotBoids c snapshot l = Except.error Fault.divisionByZero ∧
        ∃ (j : Nat) (b : Boid F), l[j]? = some b ∧
          snapshotSteer c snapshot b = Except.error Fault.divisionByZero) := by
  intro l
  induction l with
  | nil =>
    left
    exact ⟨[], rfl, rfl, fun j b hb => by simp at hb⟩
  | cons x xs ih =>
    simp only [snapshotBoids]
    cases hx : snapshotSteer c snapshot x with
    | error e =>
      have he := snapshotSteer_error c snapshot x e hx
      subst he
      right
      exact ⟨rfl, 0, x, List.getElem?_cons_zero, hx⟩
    | ok x1 =>
      rcases ih with ⟨L, hL, hlen, hpt⟩ | ⟨herr, j, b, hb, hbe⟩
      · left
        refine ⟨x1 :: L, by rw [hL], by simp [hlen], ?_⟩
        intro j b hb
        cases j with
        | zero =>
          simp only [List.getElem?_cons_zero, Option.some.injEq] at hb
          subst hb
          exact ⟨x1, hx, List.getElem?_cons_zero⟩
        | succ n =>
          simp only [List.getElem?_cons_succ] at hb
          simpa using hpt n b hb
      · right
        exact ⟨by rw [herr], j + 1, b, by simpa using hb, hbe⟩

/-- The in-place behaviour phase over distinct valid indices whose boids are
still those of the snapshot: either every visited boid is steered as on the
spec side, or some visited boid stops at a division by zero. -/
theorem applyBehaviorAll_cases [HasVecEq F] (l0 : List (Boid F)) (mx my mv mf p : F) :
    ∀ rest : List Nat, rest.Nodup → (∀ i, i ∈ rest → i < l0.length) →
    ∀ st : List (Boid F), List.Forall₂ SamePV st l0 →
      (∀ i, i ∈ rest → st[i]? = l0[i]?) →
      (∃ st1, applyBehaviorAll (⟨⟨st⟩, mx, my, mv, mf, p⟩ : FlockController F) rest
          = Except.ok ⟨⟨st1⟩, mx, my, mv, mf, p⟩ ∧
        st1.length = st.length ∧
        (∀ j, j ∉ rest → st1[j]? = st[j]?) ∧
        (∀ j b, j ∈ rest → l0[j]? = some b →
          ∃ b1, snapshotSteer (⟨⟨l0⟩, mx, my, mv, mf, p⟩ : FlockController F) l0 b
              = Except.ok b1 ∧ st1[j]? = some b1)) ∨
      (applyBehaviorAll (⟨⟨st⟩, mx, my, mv, mf, p⟩ : FlockController F) rest
          = Except.error Fault.divisionByZero ∧
        ∃ j b, j ∈ rest ∧ l0[j]? = some b ∧
          snapshotSteer (⟨⟨l0⟩, mx, my, mv, mf, p⟩ : FlockController F) l0 b
            = Except.error Fault.divisionByZero) := by
  intro rest
  induction rest with
  | nil =>
    intro _ _ st _ _
    left
    exact ⟨st, rfl, rfl, fun j _ => rfl, fun j b hj _ => by simp at hj⟩
  | cons i rest ih =>
    intro hnd hlt st hrel hsame
    obtain ⟨hi, hnd1⟩ := List.nodup_cons.mp hnd
    have hin : i < l0.length := hlt i (List.mem_cons_self i rest)
    have hb0 : l0[i]? = some l0[i] := List.getElem?_eq_getElem hin
    have hbs : st[i]? = some l0[i] := by
      rw [hsame i (List.mem_cons_self i rest)]; exact hb0
    have hstep := applyBehavior_eq_snapshotSteer
      (⟨⟨st⟩, mx, my, mv, mf, p⟩ : FlockController F) i l0[i] hbs
    have hcongr : snapshotSteer (⟨⟨st⟩, mx, my, mv, mf, p⟩ : FlockController F) st l0[i]
        = snapshotSteer (⟨⟨l0⟩, mx, my, mv, mf, p⟩ : FlockController F) l0 l0[i] :=
      snapshotSteer_congr _ _ _ _ _ rfl rfl rfl hrel
    simp only [hcongr] at hstep
    simp only [applyBehaviorAll, hstep]
    cases hs : snapshotSteer (⟨⟨l0⟩, mx, my, mv, mf, p⟩ : FlockController F) l0 l0[i] with
    | error e =>
      have he := snapshotSteer_error _ _ _ e hs
      subst he
      right
      exact ⟨rfl, i, l0[i], List.mem_cons_self i rest, hb0, hs⟩
    | ok b1 =>
      simp only [FlockController.setBoid]
      have hrel1 : List.Forall₂ SamePV (st.set i b1) l0 :=
        samePV_set st l0 hrel i l0[i] b1 hbs (snapshotSteer_samePV _ _ _ _ hs)
      have hsame1 : ∀ k, k ∈ rest → (st.set i b1)[k]? = l0[k]? := by
        intro k hk
        have hki : i ≠ k := fun hik => hi (hik ▸ hk)
        rw [List.getElem?_set_ne hki]
        exact hsame k (List.mem_cons_of_mem i hk)
      rcases ih hnd1 (fun k hk => hlt k (List.mem_cons_of_mem i hk)) (st.set i b1) hrel1 hsame1
        with ⟨st1, hrun, hlen, hout, hins⟩ | ⟨herr, j, b, hj, hjb, hje⟩
      · left
        refine ⟨st1, hrun, by rw [hlen, List.length_set], ?_, ?_⟩
        · intro j hj
          have hji : i ≠ j := fun hij => hj (hij ▸ List.mem_cons_self i rest)
          have hjr : j ∉ rest := fun hjr => hj (List.mem_cons_of_mem i hjr)
          rw [hout j hjr, List.getElem?_set_ne hji]
        · intro j b hj hjb
          rcases List.mem_cons.mp hj with hji | hjr
          · subst hji
            rw [hb0] at hjb
            simp only [Option.some.injEq] at hjb
            subst hjb
            refine ⟨b1, hs, ?_⟩
            rw [hout j hi]
            have hlt2 : j < st.length := by
              have := hrel.length_eq
              omega
            exact List.getElem?_set_self hlt2
          · exact hins j b hjr hjb
      · right
        exact ⟨herr, j, b, List.mem_cons_of_mem i hj, hjb, hje⟩

end SnapshotLemmas

section SnapshotClaims

variable {F : Type} [LinearOrderedField F] [HasSqrt F]

/-- C16: for every flock and configuration, one pass of the body of
`applyBehavior` run in place for the boids one after another, in any order
that visits every index once, gives the same result as the spec-side phase
that computes the three steering vectors of every boid from the unmodified
starting flock and then adds them: the same flock when every steering is
computed, and the same stop at a division by zero otherwise. -/
theorem behavior_in_place_eq_snapshot [HasVecEq F] (c : FlockController F) (order : List Nat)
    (hperm : order.Perm (List.range c.flock.boids.length)) :
    applyBehaviorAll c order = behaviorFromSnapshot c := by
  obtain ⟨⟨l0⟩, mx, my, mv, mf, p⟩ := c
  simp only at hperm
  have hnd : order.Nodup := (hperm.nodup_iff).mpr (List.nodup_range _)
  have hlt : ∀ i, i ∈ order → i < l0.length := fun i hi =>
    List.mem_range.mp ((hperm.mem_iff).mp hi)
  have hmem : ∀ i, i < l0.length → i ∈ order := fun i hi =>
    (hperm.mem_iff).mpr (List.mem_range.mpr hi)
  unfold behaviorFromSnapshot
  simp only
  rcases applyBehaviorAll_cases l0 mx my mv mf p order hnd hlt l0 (samePV_refl l0)
      (fun _ _ => rfl) with ⟨st1, hrun, hlen, _, hins⟩ | ⟨herr, j, b, hj, hjb, hje⟩
  · rcases snapshotBoids_cases (⟨⟨l0⟩, mx, my, mv, mf, p⟩ : FlockController F) l0 l0
      with ⟨L, hL, hlenL, hpt⟩ | ⟨_, j, b, hjb, hje⟩
    · rw [hrun, hL]
      have hst : st1 = L := by
        apply List.ext_getElem?
        intro n
        by_cases hn : n < l0.length
        · have hb0 : l0[n]? = some l0[n] := List.getElem?_eq_getElem hn
          obtain ⟨b1, h1, h2⟩ := hins n l0[n] (hmem n hn) hb0
          obtain ⟨b2, h3, h4⟩ := hpt n l0[n] hb0
          rw [h1] at h3
          simp only [Except.ok.injEq] at h3
          rw [h2, h4, h3]
        · rw [List.getElem?_eq_none (by omega), List.getElem?_eq_none (by omega)]
      rw [hst]
    · have hn : j < l0.length := (List.getElem?_eq_some.mp hjb).1
      obtain ⟨b1, h1, _⟩ := hins j b (hmem j hn) hjb
      rw [h1] at hje
      cases hje
  · rcases snapshotBoids_cases (⟨⟨l0⟩, mx, my, mv, mf, p⟩ : FlockController F) l0 l0
      with ⟨L, hL, hlenL, hpt⟩ | ⟨herr2, _⟩
    · obtain ⟨b1, h1, _⟩ := hpt j b hjb
      rw [h1] at hje
      cases hje
    · rw [herr, herr2]

/-- Witness for `behavior_in_place_eq_snapshot`: two boids, steered in place
in the order `1, 0`. -/
theorem behavior_in_place_eq_snapshot_witness :
    applyBehaviorAll
      (⟨⟨[⟨V 0 0, V 1 0, V 0 0⟩, ⟨V 10 0, V 0 1, V 0 0⟩]⟩, 1024, 768, 5, 1, 50⟩ :
        FlockController ℝ) [1, 0]
      = behaviorFromSnapshot
        (⟨⟨[⟨V 0 0, V 1 0, V 0 0⟩, ⟨V 10 0, V 0 1, V 0 0⟩]⟩, 1024, 768, 5, 1, 50⟩ :
          FlockController ℝ) :=
  behavior_in_place_eq_snapshot
    (⟨⟨[⟨V 0 0, V 1 0, V 0 0⟩, ⟨V 10 0, V 0 1, V 0 0⟩]⟩, 1024, 768, 5, 1, 50⟩ :
      FlockController ℝ) [1, 0] (List.Perm.swap 0 1 [])

end SnapshotClaims

/-! ## Range of the wrap on `float64` values -/

section WrapF64

variable {R : Type} [LinearOrderedField R]

theorem F64.lt_def (a b : F64 R) : (a < b) = F64.lt a b := rfl

theorem F64.le_def (a b : F64 R) : (a ≤ b) = F64.le a b := rfl

theorem F64.zero_def : (0 : F64 R) = F64.num 0 := rfl

/-- One axis of `wrap` on `float64` values: for a bound `m ≥ 0` and a
coordinate that is not NaN the result is in `[0, m]`. -/
theorem F64.wrap_axis_range (m x : F64 R) (hm : (0 : F64 R) ≤ m) (hx : x ≠ F64.nan) :
    (0 : F64 R) ≤ (if x > m then 0 else if x < 0 then m else x) ∧
    (if x > m then 0 else if x < 0 then m else x) ≤ m := by
  cases m with
  | num b =>
    have hb : (0 : R) ≤ b := hm
    cases x with
    | num a =>
      by_cases h1 : F64.num a > F64.num b
      · rw [if_pos h1]
        exact ⟨le_refl (0 : R), hb⟩
      · rw [if_neg h1]
        have h1a : a ≤ b := not_lt.mp h1
        by_cases h2 : F64.num a < (0 : F64 R)
        · rw [if_pos h2]
          exact ⟨hb, le_refl b⟩
        · rw [if_neg h2]
          have h2a : (0 : R) ≤ a := not_lt.mp h2
          exact ⟨h2a, h1a⟩
    | posInf =>
      have h1 : (F64.posInf : F64 R) > F64.num b := trivial
      rw [if_pos h1]
      exact ⟨le_refl (0 : R), hb⟩
    | negInf =>
      have h1 : ¬ (F64.negInf : F64 R) > F64.num b := fun h => h
      have h2 : (F64.negInf : F64 R) < (0 : F64 R) := trivial
      rw [if_neg h1, if_pos h2]
      exact ⟨hb, le_refl b⟩
    | nan => exact absurd rfl hx
  | posInf =>
    cases x with
    | num a =>
      have h1 : ¬ (F64.num a : F64 R) > F64.posInf := fun h => h
      rw [if_neg h1]
      by_cases h2 : F64.num a < (0 : F64 R)
      · rw [if_pos h2]
        exact ⟨trivial, trivial⟩
      · rw [if_neg h2]
        have h2a : (0 : R) ≤ a := not_lt.mp h2
        exact ⟨h2a, trivial⟩
    | posInf =>
      have h1 : ¬ (F64.posInf : F64 R) > F64.posInf := fun h => h
      have h2 : ¬ (F64.posInf : F64 R) < (0 : F64 R) := fun h => h
      rw [if_neg h1, if_neg h2]
      exact ⟨trivial, trivial⟩
    | negInf =>
      have h1 : ¬ (F64.negInf : F64 R) > F64.posInf := fun h => h
      have h2 : (F64.negInf : F64 R) < (0 : F64 R) := trivial
      rw [if_neg h1, if_pos h2]
      exact ⟨trivial, trivial⟩
    | nan => exact absurd rfl hx
  | negInf => exact absurd hm (fun h => h)
  | nan => exact absurd hm (fun h => h)

/-- One axis of `wrap` on `float64` values: a NaN coordinate fails both
comparisons and stays NaN. -/
theorem F64.wrap_axis_nan (m : F64 R) :
    (if (F64.nan : F64 R) > m then 0 else if (F64.nan : F64 R) < 0 then m else F64.nan)
      = (F64.nan : F64 R) := by
  have h1 : ¬ ((F64.nan : F64 R) > m) := by
    cases m <;> exact fun h => h
  have h2 : ¬ ((F64.nan : F64 R) < 0) := fun h => h
  rw [if_neg h1, if_neg h2]

/-- C17 (as amended): on `float64` values (numbers, infinities, NaN), for
bounds `maxX ≥ 0` and `maxY ≥ 0` one pass of the body of `wrap` at a valid
index returns; the velocity and acceleration of the boid, the number of boids
and every other boid are unchanged; each coordinate of the position that is
not NaN satisfies `0 ≤ x ≤ maxX`, respectively `0 ≤ y ≤ maxY`, afterwards, and
a NaN coordinate is still NaN. -/
theorem wrap_within_bounds_f64 (c : FlockController (F64 R)) (i : Nat) (b : Boid (F64 R))
    (h : c.flock.boids[i]? = some b)
    (hx : (0 : F64 R) ≤ c.maxX) (hy : (0 : F64 R) ≤ c.maxY) :
    ∃ c1 b1, wrap c i = Except.ok c1 ∧ c1.flock.boids[i]? = some b1 ∧
      (b.position.X ≠ F64.nan → 0 ≤ b1.position.X ∧ b1.position.X ≤ c.maxX) ∧
      (b.position.Y ≠ F64.nan → 0 ≤ b1.position.Y ∧ b1.position.Y ≤ c.maxY) ∧
      b1.velocity = b.velocity ∧ b1.acceleration = b.acceleration ∧
      c1.flock.boids.length = c.flock.boids.length ∧
      (∀ j, j ≠ i → c1.flock.boids[j]? = c.flock.boids[j]?) ∧
      (b.position.X = F64.nan → b1.position.X = F64.nan) ∧
      (b.position.Y = F64.nan → b1.position.Y = F64.nan) := by
  refine ⟨_, _, wrap_eq c i b h, setBoid_getElem c i b _ h,
    fun hnx => F64.wrap_axis_range c.maxX b.position.X hx hnx,
    fun hny => F64.wrap_axis_range c.maxY b.position.Y hy hny,
    rfl, rfl, setBoid_length c i _, fun j hj => setBoid_getElem_ne c i j _ hj, ?_, ?_⟩
  · intro hn
    show (if b.position.X > c.maxX then 0
      else if b.position.X < 0 then c.maxX else b.position.X) = F64.nan
    rw [hn]
    exact F64.wrap_axis_nan c.maxX
  · intro hn
    show (if b.position.Y > c.maxY then 0
      else if b.position.Y < 0 then c.maxY else b.position.Y) = F64.nan
    rw [hn]
    exact F64.wrap_axis_nan c.maxY

/-- Witness for `wrap_within_bounds_f64`: a boid at `(-1, +Inf)` in the
`1024 x 768` world, next to a second boid; it goes to `(1024, 0)`. -/
theorem wrap_within_bounds_f64_witness :
    ∃ c1 b1,
      wrap (⟨⟨[⟨⟨F64.num (-1), F64.posInf⟩, ⟨F64.num 1, F64.num 0⟩, ⟨F64.num 0, F64.num 0⟩⟩,
            ⟨⟨F64.num 5, F64.num 5⟩, ⟨F64.num 0, F64.num 1⟩, ⟨F64.num 0, F64.num 0⟩⟩]⟩,
          F64.num 1024, F64.num 768, F64.num 5, F64.num 1, F64.num 100⟩ :
        FlockController (F64 ℚ)) 0 = Except.ok c1 ∧
      c1.flock.boids[0]? = some b1 ∧
      (0 ≤ b1.position.X ∧ b1.position.X ≤ F64.num 1024) ∧
      (0 ≤ b1.position.Y ∧ b1.position.Y ≤ F64.num 768) ∧
      c1.flock.boids[1]?
        = some ⟨⟨F64.num 5, F64.num 5⟩, ⟨F64.num 0, F64.num 1⟩, ⟨F64.num 0, F64.num 0⟩⟩ := by
  obtain ⟨c1, b1, h1, h2, h3, h4, _, _, _, h7, _, _⟩ :=
    wrap_within_bounds_f64
      (⟨⟨[⟨⟨F64.num (-1), F64.posInf⟩, ⟨F64.num 1, F64.num 0⟩, ⟨F64.num 0, F64.num 0⟩⟩,
            ⟨⟨F64.num 5, F64.num 5⟩, ⟨F64.num 0, F64.num 1⟩, ⟨F64.num 0, F64.num 0⟩⟩]⟩,
          F64.num 1024, F64.num 768, F64.num 5, F64.num 1, F64.num 100⟩ :
        FlockController (F64 ℚ)) 0
      ⟨⟨F64.num (-1), F64.posInf⟩, ⟨F64.num 1, F64.num 0⟩, ⟨F64.num 0, F64.num 0⟩⟩ rfl
      (show (0 : ℚ) ≤ 1024 by norm_num) (show (0 : ℚ) ≤ 768 by norm_num)
  exact ⟨c1, b1, h1, h2, h3 (fun h => F64.noConfusion h), h4 (fun h => F64.noConfusion h),
    by rw [h7 1 (by decide)]; rfl⟩

/-- C17 (counterexample): in the `1024 x 768` world a boid whose `x`
coordinate is NaN fails both comparisons `x > maxX` and `x < 0`, so `wrap`
returns the controller unchanged, and the NaN coordinate does not satisfy
`0 ≤ x` (nor `x ≤ maxX`). -/
theorem wrap_nan_counterexample :
    wrap (⟨⟨[⟨⟨F64.nan, F64.num 5⟩, ⟨F64.num 1, F64.num 0⟩, ⟨F64.num 0, F64.num 0⟩⟩]⟩,
        F64.num 1024, F64.num 768, F64.num 5, F64.num 1, F64.num 100⟩ :
        FlockController (F64 ℚ)) 0
      = Except.ok ⟨⟨[⟨⟨F64.nan, F64.num 5⟩, ⟨F64.num 1, F64.num 0⟩,
          ⟨F64.num 0, F64.num 0⟩⟩]⟩,
        F64.num 1024, F64.num 768, F64.num 5, F64.num 1, F64.num 100⟩ ∧
    (0 : F64 ℚ) ≤ F64.num 1024 ∧ (0 : F64 ℚ) ≤ F64.num 768 ∧
    ¬ ((0 : F64 ℚ) ≤ F64.nan) ∧ ¬ ((F64.nan : F64 ℚ) ≤ F64.num 1024) := by
  refine ⟨?_, show (0 : ℚ) ≤ 1024 by norm_num, show (0 : ℚ) ≤ 768 by norm_num,
    fun h => h, fun h => h⟩
  rw [wrap_eq (⟨⟨[⟨⟨F64.nan, F64.num 5⟩, ⟨F64.num 1, F64.num 0⟩,
          ⟨F64.num 0, F64.num 0⟩⟩]⟩,
        F64.num 1024, F64.num 768, F64.num 5, F64.num 1, F64.num 100⟩ :
        FlockController (F64 ℚ)) 0
      ⟨⟨F64.nan, F64.num 5⟩, ⟨F64.num 1, F64.num 0⟩, ⟨F64.num 0, F64.num 0⟩⟩ rfl]
  have h1 : ¬ ((F64.nan : F64 ℚ) > F64.num 1024) := fun h => h
  have h2 : ¬ ((F64.nan : F64 ℚ) < 0) := fun h => h
  have h3 : ¬ ((F64.num 5 : F64 ℚ) > F64.num 768) := by
    show ¬ ((768 : ℚ) < 5)
    norm_num
  have h4 : ¬ ((F64.num 5 : F64 ℚ) < 0) := by
    show ¬ ((5 : ℚ) < 0)
    norm_num
  simp only [h1, h2, h3, h4, if_false, FlockController.setBoid, List.set_cons_zero]

end WrapF64

/-! ## The velocity bound and the unguarded division of `alignment` -/

section VelocityBoundDefect

/-- A vector `(x, 0)` with `x * x = y * y` and `y ≥ 0` has length `y`. -/
theorem len_axis_of_sq (x y : ℝ) (hy : 0 ≤ y) (h : x * x = y * y) :
    (⟨x, 0⟩ : Vec ℝ).Len = y := by
  rw [len_def]
  simp only [mul_zero, add_zero, h]
  exact Real.sqrt_mul_self hy

/-- C3 (the code at the failing input): boids at `(0, 0)` and `(10, 0)` with
velocities `(1, 0)` and `(-1, 0)`, zero accelerations, `maxVelocity = 5`,
perception radius `50`. One pass of `reposition(0)` returns with boid `0` at
`(1, 0)` and velocity `(1, 0)`, of length `1 ≤ maxVelocity`. The later
operation `alignment(0)` then finds both boids within the radius with
velocities that sum to `(0, 0)` and divides the zero average by its length
`0`, so the run `reposition(0), alignment(0), reposition(0)` leaves the reals
at its second operation: the bound does not hold after every later operation. -/
theorem velocity_bound_lost_after_alignment :
    reposition
      (⟨⟨[⟨V 0 0, V 1 0, V 0 0⟩, ⟨V 10 0, V (-1) 0, V 0 0⟩]⟩, 1024, 768, 5, 1, 50⟩ :
        FlockController ℝ) 0
      = Except.ok ⟨⟨[⟨V 1 0, V 1 0, V 0 0⟩, ⟨V 10 0, V (-1) 0, V 0 0⟩]⟩, 1024, 768, 5, 1, 50⟩ ∧
    (V 1 0 : Vec ℝ).Len = 1 ∧ (1 : ℝ) ≤ 5 ∧
    alignmentScan (50 : ℝ) ⟨V 1 0, V 1 0, V 0 0⟩
      [⟨V 1 0, V 1 0, V 0 0⟩, ⟨V 10 0, V (-1) 0, V 0 0⟩] = (V 0 0, 2) ∧
    alignment
      (⟨⟨[⟨V 1 0, V 1 0, V 0 0⟩, ⟨V 10 0, V (-1) 0, V 0 0⟩]⟩, 1024, 768, 5, 1, 50⟩ :
        FlockController ℝ) 0 = Except.error Fault.divisionByZero ∧
    runOps
      (⟨⟨[⟨V 0 0, V 1 0, V 0 0⟩, ⟨V 10 0, V (-1) 0, V 0 0⟩]⟩, 1024, 768, 5, 1, 50⟩ :
        FlockController ℝ) [Op.reposition 0, Op.alignment 0, Op.reposition 0]
      = Except.error Fault.divisionByZero := by
  have hrep : reposition
      (⟨⟨[⟨V 0 0, V 1 0, V 0 0⟩, ⟨V 10 0, V (-1) 0, V 0 0⟩]⟩, 1024, 768, 5, 1, 50⟩ :
        FlockController ℝ) 0
      = Except.ok ⟨⟨[⟨V 1 0, V 1 0, V 0 0⟩, ⟨V 10 0, V (-1) 0, V 0 0⟩]⟩,
          1024, 768, 5, 1, 50⟩ := by
    rw [reposition_eq
      (⟨⟨[⟨V 0 0, V 1 0, V 0 0⟩, ⟨V 10 0, V (-1) 0, V 0 0⟩]⟩, 1024, 768, 5, 1, 50⟩ :
        FlockController ℝ) 0 ⟨V 0 0, V 1 0, V 0 0⟩ rfl (by norm_num)]
    simp only [add_zero_vec, len_one_zero]
    norm_num [FlockController.setBoid, Vec.Add, V]
  have hscan : alignmentScan (50 : ℝ) ⟨V 1 0, V 1 0, V 0 0⟩
      [⟨V 1 0, V 1 0, V 0 0⟩, ⟨V 10 0, V (-1) 0, V 0 0⟩] = (V 0 0, 2) := by
    have e1 : ((V 1 0 : Vec ℝ).Sub (V 1 0)).Len = 0 := len_sub_self _
    have e2 : ((V 1 0 : Vec ℝ).Sub (V 10 0)).Len = 9 := by
      have := len_axis_of_sq (1 - 10) 9 (by norm_num) (by norm_num)
      simpa [Vec.Sub, V] using this
    simp only [alignmentScan, List.foldl, e1, e2]
    norm_num [Vec.Add, V]
  have hal : alignment
      (⟨⟨[⟨V 1 0, V 1 0, V 0 0⟩, ⟨V 10 0, V (-1) 0, V 0 0⟩]⟩, 1024, 768, 5, 1, 50⟩ :
        FlockController ℝ) 0 = Except.error Fault.divisionByZero := by
    have hs := alignmentSteering_zero_sum
      (⟨⟨[⟨V 1 0, V 1 0, V 0 0⟩, ⟨V 10 0, V (-1) 0, V 0 0⟩]⟩, 1024, 768, 5, 1, 50⟩ :
        FlockController ℝ) ⟨V 1 0, V 1 0, V 0 0⟩
      [⟨V 1 0, V 1 0, V 0 0⟩, ⟨V 10 0, V (-1) 0, V 0 0⟩]
      (by rw [hscan]; norm_num) (by rw [hscan])
    simp only [alignment, List.getElem?_cons_zero, hs]
  refine ⟨hrep, len_one_zero, by norm_num, hscan, hal, ?_⟩
  simp only [runOps, runOp, hrep, hal]

end VelocityBoundDefect

end Absoid
